import Mathlib

/-!
Shallow embedding of `src/detection/efficientvit_fpn.py` (class `EfficientViTFPN`
and its helper `TransposedConvModule`).

Tensors are modelled symbolically: a `Tensor` carries its channel count and
spatial size together with a `TData` expression recording exactly which
operations of the network produced it, so equalities between tensors capture
the wiring of the computation graph.  Convolution/normalization modules are
modelled by their channel signature (`ConvSpec`); applying a module to a tensor
whose channel count does not match its input signature fails, mirroring the
runtime error the host framework would raise.  Python-level failures (assertion
errors, the unbound local `extra_outs`, index errors, the `NotImplementedError`
branch) are modelled by the error type `PyErr` in the `Except` monad.
-/

set_option autoImplicit false

namespace EfficientViM

/-- Which module list of `EfficientViTFPN` a convolution application came from
(`self.lateral_convs`, `self.fpn_convs`, `self.extra_trans_convs`,
`self.extra_fpn_convs`). -/
inductive ConvTag where
  | lateral
  | fpn
  | trans
  | extraFpn
deriving DecidableEq

/-- Symbolic tensor data: the exact tree of operations applied to backbone
inputs. -/
inductive TData where
  | input (i : Nat)
  | layerNorm (i : Nat) (t : TData)
  | conv (tag : ConvTag) (idx : Nat) (t : TData)
  | interpSize (h w : Nat) (t : TData)
  | interpScale (sf : Nat) (t : TData)
  | add (a b : TData)
  | maxpool (t : TData)
  | relu (t : TData)
deriving DecidableEq

/-- A feature map: channel count, spatial size, and the symbolic expression
that produced it. -/
structure Tensor where
  channels : Nat
  height : Nat
  width : Nat
  data : TData
deriving DecidableEq

/-- The default tensor used with `List.getD` (only read under in-bounds
hypotheses). -/
def tZero : Tensor := ⟨0, 0, 0, TData.input 0⟩

/-- Python-level failures of `__init__` and `forward`. -/
inductive PyErr where
  /-- `assert len(inputs) == len(self.in_channels)` (line 204) failing. -/
  | assertInputLen
  /-- the final `assert (len(extra_outs) + len(outs)) == self.num_outs`
  (line 275) failing. -/
  | assertOutLen
  /-- `NameError`: the local `extra_outs` is unbound at line 275 because the
  branch at lines 266-273 was not taken. -/
  | nameErrorExtraOuts
  /-- a conv/norm module applied to a tensor with the wrong channel count. -/
  | channelMismatch
  /-- a list indexed out of range (`IndexError`). -/
  | indexError
  /-- the `raise NotImplementedError` at line 255. -/
  | notImplemented
  /-- an in-place `+=` of tensors with different shapes. -/
  | shapeMismatch
  /-- one of the `assert` statements of `__init__` failing. -/
  | assertConfig
deriving DecidableEq

/-- Result of a Python computation. -/
abbrev Res (α : Type) : Type := Except PyErr α

/-- The Python return value of `forward`: the code builds a Python `tuple`
(line 276); `pylist` and `tensor` exist to make that observable. -/
inductive PyValue where
  | tuple (xs : List Tensor)
  | pylist (xs : List Tensor)
  | tensor (t : Tensor)
deriving DecidableEq

/-- The `add_extra_convs` argument: Python allows a `bool` or a `str`
(line 98 `assert isinstance(add_extra_convs, (str, bool))` is type-level
here). -/
inductive ExtraConvsArg where
  | bool (b : Bool)
  | str (s : String)
deriving DecidableEq

/-- Python truthiness of `add_extra_convs` (`if not self.add_extra_convs`,
line 243): `False` and the empty string are falsy. -/
def ExtraConvsArg.truthy : ExtraConvsArg → Bool
  | .bool b => b
  | .str s => !s.isEmpty

/-- Channel signature of a `ConvModule` / `LayerNorm2D` style module. -/
structure ConvSpec where
  inC : Nat
  outC : Nat
deriving DecidableEq

/-- Constructor arguments of `EfficientViTFPN.__init__` (lines 59-74).
`upsample_scale_factor = some k` models `upsample_cfg` containing
`scale_factor=k`; `none` models the default `dict(mode='nearest')`. -/
structure FPNConfig where
  in_channels : List Nat
  out_channels : Nat
  num_outs : Nat
  start_level : Nat
  end_level : Int
  add_extra_convs : ExtraConvsArg
  extra_convs_on_inputs : Bool
  relu_before_extra_convs : Bool
  no_norm_on_lateral : Bool
  num_extra_trans_convs : Nat
  pre_norm : Bool
  upsample_scale_factor : Option Nat
deriving DecidableEq

/-- The state of a constructed `EfficientViTFPN` module: stored constructor
arguments plus the module lists built in lines 113-192, each module recorded
by its channel signature (`batch_norm` stores the normalized channel count of
each `LayerNorm2D`). -/
structure FPN where
  in_channels : List Nat
  out_channels : Nat
  num_outs : Nat
  start_level : Nat
  end_level : Int
  add_extra_convs : ExtraConvsArg
  relu_before_extra_convs : Bool
  no_norm_on_lateral : Bool
  num_extra_trans_convs : Nat
  pre_norm : Bool
  upsample_scale_factor : Option Nat
  backbone_end_level : Nat
  batch_norm : List Nat
  lateral_convs : List ConvSpec
  fpn_convs : List ConvSpec
  extra_trans_convs : List ConvSpec
  extra_fpn_convs : List ConvSpec
deriving DecidableEq

/-- The allowed string values of `add_extra_convs` (line 101). -/
def allowedExtraStr : List String := ["on_input", "on_lateral", "on_output"]

/-- Lines 87-94: computing `self.backbone_end_level` and the associated
assertions (Python integer arithmetic, hence `Int`). -/
def backboneEnd (cfg : FPNConfig) : Res Nat :=
  if cfg.end_level = -1 then
    if (cfg.in_channels.length : Int) - (cfg.start_level : Int) ≤ (cfg.num_outs : Int) then
      Except.ok cfg.in_channels.length
    else Except.error PyErr.assertConfig
  else
    if cfg.end_level ≤ (cfg.in_channels.length : Int) ∧
        (cfg.num_outs : Int) = cfg.end_level - (cfg.start_level : Int) then
      Except.ok cfg.end_level.toNat
    else Except.error PyErr.assertConfig

/-- Lines 97-111: validation of `add_extra_convs` and the rewriting of the
boolean `True` into `'on_input'` / `'on_output'` depending on
`extra_convs_on_inputs`. -/
def resolveAEC (cfg : FPNConfig) : Res ExtraConvsArg :=
  match cfg.add_extra_convs with
  | .str s =>
      if s ∈ allowedExtraStr then Except.ok (ExtraConvsArg.str s)
      else Except.error PyErr.assertConfig
  | .bool true =>
      Except.ok (ExtraConvsArg.str (if cfg.extra_convs_on_inputs then "on_input" else "on_output"))
  | .bool false => Except.ok (ExtraConvsArg.bool false)

/-- Python list indexing `xs[i]` for a possibly negative index: a negative
index wraps once from the end, and an `IndexError` is raised when the final
index is out of range (so `[][-1]` raises). -/
def pyGetSigned {α : Type} (xs : List α) (i : Int) : Res α :=
  let j : Int := if i < 0 then (xs.length : Int) + i else i
  if j < 0 then Except.error PyErr.indexError
  else
    match xs.get? j.toNat with
    | some x => Except.ok x
    | none => Except.error PyErr.indexError

/-- Line 152 of `__init__`: when the resolved `add_extra_convs` is
`'on_input'` and at least one extra conv level exists, the first extra conv's
input channel count is `self.in_channels[self.backbone_end_level - 1]` —
Python indexing that raises `IndexError` when `in_channels` is empty
(`backbone_end_level` is then `0` and the index `-1` wraps to nothing).
Otherwise line 152 is never evaluated and `out_channels` (line 154) is
returned. -/
def extraFpnInC (cfg : FPNConfig) (bel : Nat) (aec : ExtraConvsArg) : Res Nat :=
  let extraLevels2 : Nat :=
    (((cfg.num_outs : Int) - (bel : Int) + (cfg.start_level : Int)) -
      (cfg.num_extra_trans_convs : Int)).toNat
  if aec.truthy = true ∧ 1 ≤ extraLevels2 ∧ aec = ExtraConvsArg.str "on_input" then
    pyGetSigned cfg.in_channels ((bel : Int) - 1)
  else Except.ok cfg.out_channels

/-- Lines 113-192: building the module lists, given the already-computed
`backbone_end_level`, resolved `add_extra_convs`, and the first extra conv's
input channel count `c0` (evaluated fallibly by `extraFpnInC`, line 152;
`c0` is only read in the branch where that evaluation happened). -/
def mkModules (cfg : FPNConfig) (bel : Nat) (aec : ExtraConvsArg) (c0 : Nat) : FPN :=
  let usedRange := List.range' cfg.start_level (bel - cfg.start_level)
  let extraLevels2 : Nat :=
    (((cfg.num_outs : Int) - (bel : Int) + (cfg.start_level : Int)) -
      (cfg.num_extra_trans_convs : Int)).toNat
  { in_channels := cfg.in_channels
    out_channels := cfg.out_channels
    num_outs := cfg.num_outs
    start_level := cfg.start_level
    end_level := cfg.end_level
    add_extra_convs := aec
    relu_before_extra_convs := cfg.relu_before_extra_convs
    no_norm_on_lateral := cfg.no_norm_on_lateral
    num_extra_trans_convs := cfg.num_extra_trans_convs
    pre_norm := cfg.pre_norm
    upsample_scale_factor := cfg.upsample_scale_factor
    backbone_end_level := bel
    batch_norm :=
      if cfg.pre_norm then usedRange.map (fun i => cfg.in_channels.getD i 0) else []
    lateral_convs :=
      usedRange.map (fun i => ConvSpec.mk (cfg.in_channels.getD i 0) cfg.out_channels)
    fpn_convs :=
      usedRange.map (fun _ => ConvSpec.mk cfg.out_channels cfg.out_channels) ++
      (if aec.truthy = true ∧ 1 ≤ extraLevels2 then
        (List.range extraLevels2).map (fun i =>
          if i = 0 ∧ aec = ExtraConvsArg.str "on_input" then
            ConvSpec.mk c0 cfg.out_channels
          else ConvSpec.mk cfg.out_channels cfg.out_channels)
      else [])
    extra_trans_convs :=
      List.replicate cfg.num_extra_trans_convs (ConvSpec.mk cfg.out_channels cfg.out_channels)
    extra_fpn_convs :=
      List.replicate cfg.num_extra_trans_convs (ConvSpec.mk cfg.out_channels cfg.out_channels) }

/-- `EfficientViTFPN.__init__` (lines 59-192): validates the configuration
(assertion errors become `PyErr.assertConfig`; `assert isinstance(in_channels,
list)` holds by the type of `in_channels`), evaluates line 152's
`self.in_channels[self.backbone_end_level - 1]` when the `'on_input'` extra
conv branch is taken (raising `IndexError` on empty `in_channels`), and
builds the module lists.  The `assert extra_levels >= num_extra_trans_convs`
is line 147. -/
def init (cfg : FPNConfig) : Res FPN :=
  match backboneEnd cfg with
  | .error e => Except.error e
  | .ok bel =>
    match resolveAEC cfg with
    | .error e => Except.error e
    | .ok aec =>
      if (cfg.num_extra_trans_convs : Int) ≤
          (cfg.num_outs : Int) - (bel : Int) + (cfg.start_level : Int) then
        match extraFpnInC cfg bel aec with
        | .error e => Except.error e
        | .ok c0 => Except.ok (mkModules cfg bel aec c0)
      else Except.error PyErr.assertConfig

/-- List indexing `xs[i]` with a Python `IndexError` when out of range. -/
def pyGet {α : Type} (xs : List α) (i : Nat) : Res α :=
  match xs.get? i with
  | some x => Except.ok x
  | none => Except.error PyErr.indexError

/-- Python `xs[-1]` with an `IndexError` on the empty list. -/
def pyLast {α : Type} (xs : List α) : Res α :=
  match xs.getLast? with
  | some x => Except.ok x
  | none => Except.error PyErr.indexError

/-- A stride-1 convolution (the 1x1 lateral convs, lines 122-129, and the
3x3 padding-1 fpn convs, lines 130-138 and 183-192): spatial size preserved,
channels mapped `inC → outC`, failing on a channel mismatch. -/
def applyConvSame (tag : ConvTag) (idx : Nat) (s : ConvSpec) (t : Tensor) : Res Tensor :=
  if t.channels = s.inC then
    Except.ok ⟨s.outC, t.height, t.width, TData.conv tag idx t.data⟩
  else Except.error PyErr.channelMismatch

/-- A 3x3 stride-2 padding-1 convolution (the extra fpn convs, lines 155-164):
spatial size `n ↦ (n - 1) / 2 + 1`. -/
def applyConvStride2 (tag : ConvTag) (idx : Nat) (s : ConvSpec) (t : Tensor) : Res Tensor :=
  if t.channels = s.inC then
    Except.ok ⟨s.outC, (t.height - 1) / 2 + 1, (t.width - 1) / 2 + 1, TData.conv tag idx t.data⟩
  else Except.error PyErr.channelMismatch

/-- A `TransposedConvModule` with kernel 2, stride 2, padding 0
(lines 171-182, 279-300): spatial size doubled. -/
def applyTransConv (idx : Nat) (s : ConvSpec) (t : Tensor) : Res Tensor :=
  if t.channels = s.inC then
    Except.ok ⟨s.outC, 2 * t.height, 2 * t.width, TData.conv ConvTag.trans idx t.data⟩
  else Except.error PyErr.channelMismatch

/-- `LayerNorm2D(c)` applied to a tensor (line 205): shape preserved, failing
when the channel count differs from the normalized shape. -/
def applyNorm (idx : Nat) (c : Nat) (t : Tensor) : Res Tensor :=
  if t.channels = c then
    Except.ok ⟨t.channels, t.height, t.width, TData.layerNorm idx t.data⟩
  else Except.error PyErr.channelMismatch

/-- `F.max_pool2d(x, 1, stride=2)` (line 245): kernel 1, stride 2. -/
def maxpool2 (t : Tensor) : Tensor :=
  ⟨t.channels, (t.height - 1) / 2 + 1, (t.width - 1) / 2 + 1, TData.maxpool t.data⟩

/-- `F.relu` (line 261). -/
def reluT (t : Tensor) : Tensor :=
  ⟨t.channels, t.height, t.width, TData.relu t.data⟩

/-- `F.interpolate` as called in lines 217-223: with `scale_factor` in
`upsample_cfg` the size is scaled, otherwise `size=prev_shape` is used. -/
def interpTo (m : FPN) (t : Tensor) (ph pw : Nat) : Tensor :=
  match m.upsample_scale_factor with
  | some sf => ⟨t.channels, sf * t.height, sf * t.width, TData.interpScale sf t.data⟩
  | none => ⟨t.channels, ph, pw, TData.interpSize ph pw t.data⟩

/-- In-place tensor `+=` (lines 218, 222): requires equal shapes. -/
def addT (a b : Tensor) : Res Tensor :=
  if a.channels = b.channels ∧ a.height = b.height ∧ a.width = b.width then
    Except.ok ⟨a.channels, a.height, a.width, TData.add a.data b.data⟩
  else Except.error PyErr.shapeMismatch

/-- The list comprehension of line 205: element `j` applies the `j`-th
`LayerNorm2D` to `inputs[j]`. -/
def normMap (inputs : List Tensor) : Nat → List Nat → Res (List Tensor)
  | _, [] => Except.ok []
  | j, c :: cs =>
    match pyGet inputs j with
    | .error e => Except.error e
    | .ok t =>
      match applyNorm j c t with
      | .error e => Except.error e
      | .ok u =>
        match normMap inputs (j + 1) cs with
        | .error e => Except.error e
        | .ok rest => Except.ok (u :: rest)

/-- Line 205: `if self.pre_norm: inputs = [norm(inputs[i]) for i, norm in
enumerate(self.batch_norm)]`. -/
def applyPreNorm (m : FPN) (inputs : List Tensor) : Res (List Tensor) :=
  if m.pre_norm then normMap inputs 0 m.batch_norm else Except.ok inputs

/-- The list comprehension of lines 207-210: element `i` applies
`lateral_convs[i]` to `inputs[i + start_level]`. -/
def lateralsAux (m : FPN) (inputs : List Tensor) : Nat → List ConvSpec → Res (List Tensor)
  | _, [] => Except.ok []
  | i, s :: ss =>
    match pyGet inputs (i + m.start_level) with
    | .error e => Except.error e
    | .ok t =>
      match applyConvSame ConvTag.lateral i s t with
      | .error e => Except.error e
      | .ok u =>
        match lateralsAux m inputs (i + 1) ss with
        | .error e => Except.error e
        | .ok rest => Except.ok (u :: rest)

/-- Lines 207-210: build the laterals. -/
def buildLaterals (m : FPN) (inputs : List Tensor) : Res (List Tensor) :=
  lateralsAux m inputs 0 m.lateral_convs

/-- One iteration of the top-down loop (lines 214-223) at loop variable `i`:
`laterals[i - 1] += F.interpolate(laterals[i], ...)`. -/
def topDownStep (m : FPN) (lats : List Tensor) (i : Nat) : Res (List Tensor) :=
  match pyGet lats i with
  | .error e => Except.error e
  | .ok hi =>
    match pyGet lats (i - 1) with
    | .error e => Except.error e
    | .ok lo =>
      match addT lo (interpTo m hi lo.height lo.width) with
      | .error e => Except.error e
      | .ok s => Except.ok (lats.set (i - 1) s)

/-- The top-down loop with loop variable counting down `c, c-1, ..., 1`
(`for i in range(used_backbone_levels - 1, 0, -1)`, line 214). -/
def topDownGo (m : FPN) : Nat → List Tensor → Res (List Tensor)
  | 0, lats => Except.ok lats
  | c + 1, lats =>
    match topDownStep m lats (c + 1) with
    | .error e => Except.error e
    | .ok l2 => topDownGo m c l2

/-- Lines 213-223: the whole top-down path. -/
def topDown (m : FPN) (lats : List Tensor) : Res (List Tensor) :=
  topDownGo m (lats.length - 1) lats

/-- The loop of lines 229-232 with `k` iterations left, current loop index
`i` and accumulator `acc`: each new extra lateral is prepended
(`extra_laterals.insert(0, extra_lateral)`). -/
def extraLatAux (m : FPN) : Tensor → Nat → Nat → List Tensor → Res (List Tensor)
  | _, _, 0, acc => Except.ok acc
  | prev, i, k + 1, acc =>
    match pyGet m.extra_trans_convs i with
    | .error e => Except.error e
    | .ok s =>
      match applyTransConv i s prev with
      | .error e => Except.error e
      | .ok el => extraLatAux m el (i + 1) k (el :: acc)

/-- Lines 227-232: build the extra laterals from `laterals[0]`. -/
def buildExtraLaterals (m : FPN) (lat0 : Tensor) : Res (List Tensor) :=
  extraLatAux m lat0 0 m.num_extra_trans_convs []

/-- The list comprehension of lines 235-237 with `k` elements left to build:
element `i` applies `fpn_convs[i]` to `laterals[i]`. -/
def part1Aux (m : FPN) (lats : List Tensor) : Nat → Nat → Res (List Tensor)
  | _, 0 => Except.ok []
  | i, k + 1 =>
    match pyGet lats i with
    | .error e => Except.error e
    | .ok t =>
      match pyGet m.fpn_convs i with
      | .error e => Except.error e
      | .ok s =>
        match applyConvSame ConvTag.fpn i s t with
        | .error e => Except.error e
        | .ok u =>
          match part1Aux m lats (i + 1) k with
          | .error e => Except.error e
          | .ok rest => Except.ok (u :: rest)

/-- Lines 235-237: the backbone-derived outputs. -/
def part1Outs (m : FPN) (lats : List Tensor) (used : Nat) : Res (List Tensor) :=
  part1Aux m lats 0 used

/-- The pooling loop of lines 244-245 with `k` iterations left:
`outs.append(F.max_pool2d(outs[-1], 1, stride=2))`. -/
def poolLoop (outs : List Tensor) : Nat → Res (List Tensor)
  | 0 => Except.ok outs
  | k + 1 =>
    match pyLast outs with
    | .error e => Except.error e
    | .ok l => poolLoop (outs ++ [maxpool2 l]) k

/-- The loop of lines 258-263 with `k` iterations left at loop index `i`:
appends `fpn_convs[i]` applied to (optionally ReLU-ed) `outs[-1]`. -/
def extraConvLoop (m : FPN) (outs : List Tensor) : Nat → Nat → Res (List Tensor)
  | _, 0 => Except.ok outs
  | i, k + 1 =>
    match pyLast outs with
    | .error e => Except.error e
    | .ok l =>
      match pyGet m.fpn_convs i with
      | .error e => Except.error e
      | .ok s =>
        match applyConvStride2 ConvTag.fpn i s
            (if m.relu_before_extra_convs then reluT l else l) with
        | .error e => Except.error e
        | .ok u => extraConvLoop m (outs ++ [u]) (i + 1) k

/-- Lines 248-255: selecting `extra_source`. -/
def extraSource (m : FPN) (inputs lats outs : List Tensor) : Res Tensor :=
  match m.add_extra_convs with
  | .str "on_input" => pyGet inputs (m.backbone_end_level - 1)
  | .str "on_lateral" => pyLast lats
  | .str "on_output" => pyLast outs
  | _ => Except.error PyErr.notImplemented

/-- Lines 239-263 (`part 2: add extra levels`): `used` is
`used_backbone_levels`. -/
def part2 (m : FPN) (inputs lats extraLats : List Tensor) (used : Nat)
    (outs : List Tensor) : Res (List Tensor) :=
  if outs.length + extraLats.length < m.num_outs then
    if m.add_extra_convs.truthy = false then
      poolLoop outs (m.num_outs - extraLats.length - used)
    else
      match extraSource m inputs lats outs with
      | .error e => Except.error e
      | .ok src =>
        match pyGet m.fpn_convs used with
        | .error e => Except.error e
        | .ok s =>
          match applyConvStride2 ConvTag.fpn used s src with
          | .error e => Except.error e
          | .ok u =>
            extraConvLoop m (outs ++ [u]) (used + 1)
              (m.num_outs - extraLats.length - (used + 1))
  else Except.ok outs

/-- The comprehension of lines 270-273 with `k` elements left at index `i`:
element `i` applies `extra_fpn_convs[i]` to `extra_laterals[i]`. -/
def part3Aux (m : FPN) (els : List Tensor) : Nat → Nat → Res (List Tensor)
  | _, 0 => Except.ok []
  | i, k + 1 =>
    match pyGet els i with
    | .error e => Except.error e
    | .ok t =>
      match pyGet m.extra_fpn_convs i with
      | .error e => Except.error e
      | .ok s =>
        match applyConvSame ConvTag.extraFpn i s t with
        | .error e => Except.error e
        | .ok u =>
          match part3Aux m els (i + 1) k with
          | .error e => Except.error e
          | .ok rest => Except.ok (u :: rest)

/-- Lines 270-273: the extra outputs from the extra laterals. -/
def part3 (m : FPN) (els : List Tensor) : Res (List Tensor) :=
  part3Aux m els 0 m.num_extra_trans_convs

/-- Lines 202-263 of `forward`: the input-length assertion, pre-norm,
laterals, top-down path, extra laterals, part 1 and part 2.  Returns the pair
`(extra_laterals, outs)`. -/
def forwardParts (m : FPN) (inputs0 : List Tensor) : Res (List Tensor × List Tensor) :=
  if inputs0.length = m.in_channels.length then
    match applyPreNorm m inputs0 with
    | .error e => Except.error e
    | .ok inputs =>
      match buildLaterals m inputs with
      | .error e => Except.error e
      | .ok laterals =>
        match topDown m laterals with
        | .error e => Except.error e
        | .ok laterals2 =>
          match (if 0 < m.num_extra_trans_convs then
                  match pyGet laterals2 0 with
                  | .error e => Except.error e
                  | .ok l0 => buildExtraLaterals m l0
                else Except.ok []) with
          | .error e => Except.error e
          | .ok extraLats =>
            match part1Outs m laterals2 laterals.length with
            | .error e => Except.error e
            | .ok outs =>
              match part2 m inputs laterals2 extraLats laterals.length outs with
              | .error e => Except.error e
              | .ok outs2 => Except.ok (extraLats, outs2)
  else Except.error PyErr.assertInputLen

/-- `EfficientViTFPN.forward` (lines 202-276).  After part 2, the code of
lines 266-276 runs: when `num_extra_trans_convs > 0` the extra outputs are
built and the final assertion checked, the result being the Python tuple
`tuple(extra_outs + outs)`; when `num_extra_trans_convs == 0` the local
`extra_outs` is unbound and evaluating the assertion raises a `NameError`. -/
def forward (m : FPN) (inputs0 : List Tensor) : Res PyValue :=
  match forwardParts m inputs0 with
  | .error e => Except.error e
  | .ok (extraLats, outs) =>
    if 0 < m.num_extra_trans_convs then
      match part3 m extraLats with
      | .error e => Except.error e
      | .ok extraOuts =>
        if extraOuts.length + outs.length = m.num_outs then
          Except.ok (PyValue.tuple (extraOuts ++ outs))
        else Except.error PyErr.assertOutLen
    else Except.error PyErr.nameErrorExtraOuts

deriving instance DecidableEq for Except

/-- Whether a Python computation completed without raising. -/
def resOk {α : Type} : Res α → Bool
  | .ok _ => true
  | .error _ => false

/-- Whether a `forward` result is a normal return whose value is a Python
tuple. -/
def isTupleRes : Res PyValue → Bool
  | .ok (PyValue.tuple _) => true
  | _ => false

/-- Whether a `forward` result is a normal return of a tuple all of whose
feature maps have exactly `c` channels. -/
def outChannelsOk (c : Nat) : Res PyValue → Bool
  | .ok (PyValue.tuple xs) => xs.all (fun t => t.channels == c)
  | _ => false

/-- The value `backbone_end_level` would take, as an integer (for stating the
`__init__` assertions). -/
def belSpec (cfg : FPNConfig) : Int :=
  if cfg.end_level = -1 then (cfg.in_channels.length : Int) else cfg.end_level

/-- The conjunction of the `__init__` assertions (lines 76-101 and 147), as
stated by the specification: when `end_level == -1`,
`num_outs >= len(in_channels) - start_level`; otherwise
`end_level <= len(in_channels)` and `num_outs == end_level - start_level`;
`add_extra_convs` is a bool or one of the three allowed strings (that it is a
bool or a str at all is enforced by the type of `ExtraConvsArg`, mirroring
`assert isinstance`, as is `assert isinstance(in_channels, list)` by the type
of `in_channels`); and
`num_outs - backbone_end_level + start_level >= num_extra_trans_convs`. -/
def initConsistent (cfg : FPNConfig) : Prop :=
  (if cfg.end_level = -1 then
    ((cfg.in_channels.length : Int) - (cfg.start_level : Int) ≤ (cfg.num_outs : Int))
  else
    (cfg.end_level ≤ (cfg.in_channels.length : Int) ∧
      (cfg.num_outs : Int) = cfg.end_level - (cfg.start_level : Int))) ∧
  (match cfg.add_extra_convs with
    | .str s => s ∈ allowedExtraStr
    | .bool _ => True) ∧
  ((cfg.num_extra_trans_convs : Int) ≤
    (cfg.num_outs : Int) - belSpec cfg + (cfg.start_level : Int))

/-- The errors an inner stage of `forward` can raise: index errors, channel
mismatches and shape mismatches (never the assertions, the `NameError` or
`NotImplementedError`). -/
def stageErr (e : PyErr) : Prop :=
  e = PyErr.indexError ∨ e = PyErr.channelMismatch ∨ e = PyErr.shapeMismatch

/-- Description of the built laterals (claim C3): element `i` is the `i`-th
lateral 1x1 convolution applied to input `i + start_level`. -/
def LateralsSpec (m : FPN) (inputs l : List Tensor) : Prop :=
  l.length = m.lateral_convs.length ∧
  ∀ i, i < l.length →
    ∃ s t, m.lateral_convs.get? i = some s ∧
      inputs.get? (i + m.start_level) = some t ∧
      applyConvSame ConvTag.lateral i s t = Except.ok (l.getD i tZero)

/-- Description of the top-down path (claim C3): the coarsest lateral is
unchanged, and every other accumulated lateral at level `i` is the built
lateral at `i` incremented by the accumulated lateral at `i + 1` upsampled by
`F.interpolate` (to the spatial size of level `i`, or by the configured scale
factor). -/
def TopDownSpec (m : FPN) (l l2 : List Tensor) : Prop :=
  l2.length = l.length ∧
  (∀ i, i + 1 = l.length → l2.getD i tZero = l.getD i tZero) ∧
  (∀ i, i + 1 < l.length →
    addT (l.getD i tZero)
      (interpTo m (l2.getD (i + 1) tZero)
        (l.getD i tZero).height (l.getD i tZero).width) =
      Except.ok (l2.getD i tZero))

/-- Description of the backbone-derived outputs (claim C3): element `i` is
the `i`-th 3x3 fpn convolution applied to accumulated lateral `i`. -/
def FpnOutsSpec (m : FPN) (lats outs : List Tensor) : Prop :=
  ∀ i, i < outs.length →
    ∃ s t, m.fpn_convs.get? i = some s ∧ lats.get? i = some t ∧
      applyConvSame ConvTag.fpn i s t = Except.ok (outs.getD i tZero)

/-- The chain of repeated stride-2 max poolings of `t`: element `j` is `t`
pooled `j + 1` times. -/
def poolChain (t : Tensor) : Nat → List Tensor
  | 0 => []
  | k + 1 => maxpool2 t :: poolChain (maxpool2 t) k

/-- Claim C6, pooling side, in the words of the specification: the missing
coarser levels are obtained by repeated stride-2 max pooling of the previous
coarsest output. -/
def specPoolLevels (outs : List Tensor) (k : Nat) : Res (List Tensor) :=
  match outs.getLast? with
  | some l => Except.ok (outs ++ poolChain l k)
  | none => if k = 0 then Except.ok outs else Except.error PyErr.indexError

/-- Claim C6, convolution side, in the words of the specification: the chain
of `k` further extra levels after the first one, each obtained by applying the
next stride-2 3x3 fpn convolution to the previous level (optionally after
`F.relu`). -/
def specConvChain (m : FPN) : Tensor → Nat → Nat → Res (List Tensor)
  | _, _, 0 => Except.ok []
  | prev, i, k + 1 =>
    match pyGet m.fpn_convs i with
    | .error e => Except.error e
    | .ok s =>
      match applyConvStride2 ConvTag.fpn i s
          (if m.relu_before_extra_convs then reluT prev else prev) with
      | .error e => Except.error e
      | .ok u =>
        match specConvChain m u (i + 1) k with
        | .error e => Except.error e
        | .ok rest => Except.ok (u :: rest)

/-- Claim C6 in the words of the specification: when `num_outs` exceeds the
number of backbone-derived outputs plus extra transposed-conv outputs, the
missing coarser levels are appended, either as the chain of repeated stride-2
max poolings of the previous coarsest output (when `add_extra_convs` is
falsy), or as a chain of stride-2 3x3 convolutions whose first input is
selected by `add_extra_convs` from the last backbone input (`'on_input'`),
the last lateral (`'on_lateral'`) or the last output (`'on_output'`). -/
def specPart2 (m : FPN) (inputs lats extraLats : List Tensor) (used : Nat)
    (outs : List Tensor) : Res (List Tensor) :=
  if outs.length + extraLats.length < m.num_outs then
    if m.add_extra_convs.truthy = false then
      specPoolLevels outs (m.num_outs - extraLats.length - used)
    else
      match extraSource m inputs lats outs with
      | .error e => Except.error e
      | .ok src =>
        match pyGet m.fpn_convs used with
        | .error e => Except.error e
        | .ok s =>
          match applyConvStride2 ConvTag.fpn used s src with
          | .error e => Except.error e
          | .ok u =>
            Except.map (fun rest => outs ++ u :: rest)
              (specConvChain m u (used + 1)
                (m.num_outs - extraLats.length - (used + 1)))
  else Except.ok outs

/-- Claim C5 in the words of the specification: the stride-2 transposed
convolutions applied iteratively, in application order (coarsest first);
the extra laterals of the code are the reverse of this chain. -/
def transChain (m : FPN) : Tensor → Nat → Nat → Res (List Tensor)
  | _, _, 0 => Except.ok []
  | prev, i, k + 1 =>
    match pyGet m.extra_trans_convs i with
    | .error e => Except.error e
    | .ok s =>
      match applyTransConv i s prev with
      | .error e => Except.error e
      | .ok el =>
        match transChain m el (i + 1) k with
        | .error e => Except.error e
        | .ok rest => Except.ok (el :: rest)

/-- Sample configuration with `num_extra_trans_convs = 0` (the documented
default): two backbone levels, `num_outs = 2`. -/
def cfg0 : FPNConfig :=
  ⟨[4, 8], 5, 2, 0, -1, ExtraConvsArg.bool false, true, false, false, 0, false, none⟩

/-- The module `init cfg0` builds. -/
def m0 : FPN := mkModules cfg0 2 (ExtraConvsArg.bool false) 5

/-- Sample configuration with one extra transposed conv and one pooled extra
level: two backbone levels, `num_outs = 4`. -/
def cfg1 : FPNConfig :=
  ⟨[4, 8], 5, 4, 0, -1, ExtraConvsArg.bool false, true, false, false, 1, false, none⟩

/-- The module `init cfg1` builds. -/
def m1 : FPN := mkModules cfg1 2 (ExtraConvsArg.bool false) 5

/-- Sample configuration using `add_extra_convs = 'on_input'` with two extra
conv levels and one extra transposed conv: `num_outs = 5`. -/
def cfg2 : FPNConfig :=
  ⟨[4, 8], 5, 5, 0, -1, ExtraConvsArg.str "on_input", true, false, false, 1, false, none⟩

/-- The module `init cfg2` builds. -/
def m2 : FPN := mkModules cfg2 2 (ExtraConvsArg.str "on_input") 8

/-- Sample configuration passing the boolean `True` for `add_extra_convs`. -/
def cfgT : FPNConfig :=
  ⟨[4, 8], 5, 4, 0, -1, ExtraConvsArg.bool true, true, false, false, 1, false, none⟩

/-- The module `init cfgT` builds: `True` has been rewritten to
`'on_input'`. -/
def mT : FPN := mkModules cfgT 2 (ExtraConvsArg.str "on_input") 8

/-- Sample input: two feature maps matching `in_channels = [4, 8]` at
decreasing resolutions. -/
def inputs1 : List Tensor := [⟨4, 8, 8, TData.input 0⟩, ⟨8, 4, 4, TData.input 1⟩]

/-- The first lateral `init cfg1` computes on `inputs1`. -/
def latW0 : Tensor := ⟨5, 8, 8, TData.conv ConvTag.lateral 0 (TData.input 0)⟩

/-- The second lateral `init cfg1` computes on `inputs1`. -/
def latW1 : Tensor := ⟨5, 4, 4, TData.conv ConvTag.lateral 1 (TData.input 1)⟩

/-- The laterals of `m1` on `inputs1`. -/
def latsW : List Tensor := [latW0, latW1]

/-- The finest accumulated lateral of `m1` on `inputs1` after the top-down
path. -/
def accW0 : Tensor := ⟨5, 8, 8, TData.add latW0.data (TData.interpSize 8 8 latW1.data)⟩

/-- The accumulated laterals of `m1` on `inputs1`. -/
def latsW2 : List Tensor := [accW0, latW1]

/-- The backbone-derived outputs of `m1` on `inputs1`. -/
def outsW : List Tensor :=
  [⟨5, 8, 8, TData.conv ConvTag.fpn 0 accW0.data⟩,
   ⟨5, 4, 4, TData.conv ConvTag.fpn 1 latW1.data⟩]

/-! ## Inversion lemmas for the primitive operations -/

theorem pyGet_ok {α : Type} {xs : List α} {i : Nat} {x : α} :
    pyGet xs i = Except.ok x ↔ xs.get? i = some x := by
  unfold pyGet; split <;> simp_all [List.get?_eq_getElem?, List.getElem?_eq_none]

theorem pyGet_err {α : Type} {xs : List α} {i : Nat} {e : PyErr} :
    pyGet xs i = Except.error e → e = PyErr.indexError := by
  unfold pyGet; split <;> simp_all

theorem pyLast_ok {α : Type} {xs : List α} {x : α} :
    pyLast xs = Except.ok x ↔ xs.getLast? = some x := by
  unfold pyLast; split <;> simp_all

theorem pyLast_err {α : Type} {xs : List α} {e : PyErr} :
    pyLast xs = Except.error e → e = PyErr.indexError := by
  unfold pyLast; split <;> simp_all

theorem applyConvSame_ok {tag : ConvTag} {idx : Nat} {s : ConvSpec} {t u : Tensor} :
    applyConvSame tag idx s t = Except.ok u ↔
      t.channels = s.inC ∧ u = ⟨s.outC, t.height, t.width, TData.conv tag idx t.data⟩ := by
  unfold applyConvSame; split <;> simp_all [eq_comm]

theorem applyConvSame_err {tag : ConvTag} {idx : Nat} {s : ConvSpec} {t : Tensor} {e : PyErr} :
    applyConvSame tag idx s t = Except.error e → e = PyErr.channelMismatch := by
  unfold applyConvSame; split <;> simp_all

theorem applyConvStride2_ok {tag : ConvTag} {idx : Nat} {s : ConvSpec} {t u : Tensor} :
    applyConvStride2 tag idx s t = Except.ok u ↔
      t.channels = s.inC ∧
        u = ⟨s.outC, (t.height - 1) / 2 + 1, (t.width - 1) / 2 + 1,
          TData.conv tag idx t.data⟩ := by
  unfold applyConvStride2; split <;> simp_all [eq_comm]

theorem applyConvStride2_err {tag : ConvTag} {idx : Nat} {s : ConvSpec} {t : Tensor}
    {e : PyErr} :
    applyConvStride2 tag idx s t = Except.error e → e = PyErr.channelMismatch := by
  unfold applyConvStride2; split <;> simp_all

theorem applyTransConv_ok {idx : Nat} {s : ConvSpec} {t u : Tensor} :
    applyTransConv idx s t = Except.ok u ↔
      t.channels = s.inC ∧
        u = ⟨s.outC, 2 * t.height, 2 * t.width, TData.conv ConvTag.trans idx t.data⟩ := by
  unfold applyTransConv; split <;> simp_all [eq_comm]

theorem applyTransConv_err {idx : Nat} {s : ConvSpec} {t : Tensor} {e : PyErr} :
    applyTransConv idx s t = Except.error e → e = PyErr.channelMismatch := by
  unfold applyTransConv; split <;> simp_all

theorem applyNorm_ok {idx c : Nat} {t u : Tensor} :
    applyNorm idx c t = Except.ok u ↔
      t.channels = c ∧ u = ⟨t.channels, t.height, t.width, TData.layerNorm idx t.data⟩ := by
  unfold applyNorm; split <;> simp_all [eq_comm]

theorem applyNorm_err {idx c : Nat} {t : Tensor} {e : PyErr} :
    applyNorm idx c t = Except.error e → e = PyErr.channelMismatch := by
  unfold applyNorm; split <;> simp_all

theorem addT_ok {a b u : Tensor} :
    addT a b = Except.ok u ↔
      (a.channels = b.channels ∧ a.height = b.height ∧ a.width = b.width) ∧
        u = ⟨a.channels, a.height, a.width, TData.add a.data b.data⟩ := by
  unfold addT; split <;> simp_all [eq_comm]

theorem addT_err {a b : Tensor} {e : PyErr} :
    addT a b = Except.error e → e = PyErr.shapeMismatch := by
  unfold addT; split <;> simp_all

/-! ## Stage characterizations -/

theorem lateralsAux_spec (m : FPN) (inputs : List Tensor) :
    ∀ (ss : List ConvSpec) (i : Nat) (l : List Tensor),
      lateralsAux m inputs i ss = Except.ok l →
      l.length = ss.length ∧
      ∀ j, j < ss.length →
        ∃ s t, ss.get? j = some s ∧ inputs.get? (i + j + m.start_level) = some t ∧
          applyConvSame ConvTag.lateral (i + j) s t = Except.ok (l.getD j tZero) := by
  intro ss
  induction ss with
  | nil =>
    intro i l h
    simp only [lateralsAux, Except.ok.injEq] at h
    subst h
    simp
  | cons s ss ih =>
    intro i l h
    simp only [lateralsAux] at h
    cases h1 : pyGet inputs (i + m.start_level) with
    | error e => rw [h1] at h; simp only [] at h; exact Except.noConfusion h
    | ok t =>
      rw [h1] at h; simp only [] at h
      cases h2 : applyConvSame ConvTag.lateral i s t with
      | error e => rw [h2] at h; simp only [] at h; exact Except.noConfusion h
      | ok u =>
        rw [h2] at h; simp only [] at h
        cases h3 : lateralsAux m inputs (i + 1) ss with
        | error e => rw [h3] at h; simp only [] at h; exact Except.noConfusion h
        | ok rest =>
          rw [h3] at h; simp only [Except.ok.injEq] at h
          subst h
          obtain ⟨hlen, helt⟩ := ih (i + 1) rest h3
          refine ⟨by simp [hlen], ?_⟩
          intro j hj
          cases j with
          | zero =>
            refine ⟨s, t, by simp, by simpa using pyGet_ok.mp h1, ?_⟩
            simpa using h2
          | succ j =>
            obtain ⟨s2, t2, hs2, ht2, hc2⟩ := helt j (by simpa using hj)
            refine ⟨s2, t2, by simpa using hs2, ?_, ?_⟩
            · have heq : i + 1 + j = i + (j + 1) := by omega
              rw [← heq]; exact ht2
            · have heq : i + 1 + j = i + (j + 1) := by omega
              rw [← heq]; simpa using hc2

theorem buildLaterals_spec {m : FPN} {inputs l : List Tensor}
    (h : buildLaterals m inputs = Except.ok l) : LateralsSpec m inputs l := by
  obtain ⟨hlen, helt⟩ := lateralsAux_spec m inputs m.lateral_convs 0 l h
  refine ⟨hlen, ?_⟩
  intro i hi
  obtain ⟨s, t, hs, ht, hc⟩ := helt i (by omega)
  exact ⟨s, t, hs, by simpa using ht, by simpa using hc⟩

theorem get?_some_lt {α : Type} {xs : List α} {i : Nat} {x : α}
    (h : xs.get? i = some x) : i < xs.length := by
  rw [List.get?_eq_getElem?] at h
  exact (List.getElem?_eq_some.mp h).1

theorem get?_some_getD {α : Type} {xs : List α} {i : Nat} {x d : α}
    (h : xs.get? i = some x) : xs.getD i d = x := by
  rw [List.get?_eq_getElem?] at h
  simp [List.getD_eq_getElem?_getD, h]

theorem getD_set_ne {α : Type} {l : List α} {i j : Nat} {a d : α} (h : i ≠ j) :
    (l.set i a).getD j d = l.getD j d := by
  simp [List.getD_eq_getElem?_getD, List.getElem?_set_ne h]

theorem getD_set_self {α : Type} {l : List α} {i : Nat} {a d : α} (h : i < l.length) :
    (l.set i a).getD i d = a := by
  simp [List.getD_eq_getElem?_getD, List.getElem?_set_self h]

theorem topDownStep_ok {m : FPN} {lats l2 : List Tensor} {i : Nat}
    (h : topDownStep m lats i = Except.ok l2) :
    ∃ hi lo v, lats.get? i = some hi ∧ lats.get? (i - 1) = some lo ∧
      addT lo (interpTo m hi lo.height lo.width) = Except.ok v ∧
      l2 = lats.set (i - 1) v := by
  simp only [topDownStep] at h
  cases h1 : pyGet lats i with
  | error e => rw [h1] at h; simp only [] at h; exact Except.noConfusion h
  | ok hi =>
    rw [h1] at h; simp only [] at h
    cases h2 : pyGet lats (i - 1) with
    | error e => rw [h2] at h; simp only [] at h; exact Except.noConfusion h
    | ok lo =>
      rw [h2] at h; simp only [] at h
      cases h3 : addT lo (interpTo m hi lo.height lo.width) with
      | error e => rw [h3] at h; simp only [] at h; exact Except.noConfusion h
      | ok v =>
        rw [h3] at h; simp only [Except.ok.injEq] at h
        exact ⟨hi, lo, v, pyGet_ok.mp h1, pyGet_ok.mp h2, h3, h.symm⟩

theorem topDownGo_spec (m : FPN) :
    ∀ (n : Nat) (lats l2 : List Tensor), topDownGo m n lats = Except.ok l2 →
      l2.length = lats.length ∧
      (∀ i, n ≤ i → l2.getD i tZero = lats.getD i tZero) ∧
      (∀ i, i < n →
        addT (lats.getD i tZero)
          (interpTo m (l2.getD (i + 1) tZero)
            (lats.getD i tZero).height (lats.getD i tZero).width) =
          Except.ok (l2.getD i tZero)) := by
  intro n
  induction n with
  | zero =>
    intro lats l2 h
    simp only [topDownGo, Except.ok.injEq] at h
    subst h
    exact ⟨rfl, fun i _ => rfl, fun i hi => absurd hi (by omega)⟩
  | succ c ih =>
    intro lats l2 h
    simp only [topDownGo] at h
    cases hs : topDownStep m lats (c + 1) with
    | error e => rw [hs] at h; simp only [] at h; exact Except.noConfusion h
    | ok l1 =>
      rw [hs] at h; simp only [] at h
      obtain ⟨hi, lo, v, hhi, hlo, hadd, hset⟩ := topDownStep_ok hs
      rw [Nat.add_sub_cancel] at hlo hset
      subst hset
      obtain ⟨ihlen, ihfix, ihrec⟩ := ih _ l2 h
      have hclt : c + 1 < lats.length := get?_some_lt hhi
      refine ⟨ihlen.trans (List.length_set ..), ?_, ?_⟩
      · intro i hif
        rw [ihfix i (by omega)]
        exact getD_set_ne (by omega)
      · intro i hic
        rcases Nat.lt_succ_iff_lt_or_eq.mp hic with hlt | heq
        · have := ihrec i hlt
          rwa [getD_set_ne (by omega : c ≠ i)] at this
        · subst heq
          have h2i : l2.getD i tZero = v := by
            rw [ihfix i (by omega)]
            exact getD_set_self (by omega)
          have h2i1 : l2.getD (i + 1) tZero = hi := by
            rw [ihfix (i + 1) (by omega), getD_set_ne (by omega : i ≠ i + 1)]
            exact get?_some_getD hhi
          have hloD : lats.getD i tZero = lo := get?_some_getD hlo
          rw [h2i, h2i1, hloD]
          exact hadd

theorem topDown_spec {m : FPN} {lats l2 : List Tensor}
    (h : topDown m lats = Except.ok l2) : TopDownSpec m lats l2 := by
  obtain ⟨hlen, hfix, hrec⟩ := topDownGo_spec m (lats.length - 1) lats l2 h
  refine ⟨hlen, ?_, ?_⟩
  · intro i hi
    exact hfix i (by omega)
  · intro i hi
    exact hrec i (by omega)

theorem part1Aux_spec (m : FPN) (lats : List Tensor) :
    ∀ (k i : Nat) (l : List Tensor), part1Aux m lats i k = Except.ok l →
      l.length = k ∧
      ∀ j, j < k →
        ∃ s t, m.fpn_convs.get? (i + j) = some s ∧ lats.get? (i + j) = some t ∧
          applyConvSame ConvTag.fpn (i + j) s t = Except.ok (l.getD j tZero) := by
  intro k
  induction k with
  | zero =>
    intro i l h
    simp only [part1Aux, Except.ok.injEq] at h
    subst h
    simp
  | succ k ih =>
    intro i l h
    simp only [part1Aux] at h
    cases h1 : pyGet lats i with
    | error e => rw [h1] at h; simp only [] at h; exact Except.noConfusion h
    | ok t =>
      rw [h1] at h; simp only [] at h
      cases h2 : pyGet m.fpn_convs i with
      | error e => rw [h2] at h; simp only [] at h; exact Except.noConfusion h
      | ok s =>
        rw [h2] at h; simp only [] at h
        cases h3 : applyConvSame ConvTag.fpn i s t with
        | error e => rw [h3] at h; simp only [] at h; exact Except.noConfusion h
        | ok u =>
          rw [h3] at h; simp only [] at h
          cases h4 : part1Aux m lats (i + 1) k with
          | error e => rw [h4] at h; simp only [] at h; exact Except.noConfusion h
          | ok rest =>
            rw [h4] at h; simp only [Except.ok.injEq] at h
            subst h
            obtain ⟨hlen, helt⟩ := ih (i + 1) rest h4
            refine ⟨by simp [hlen], ?_⟩
            intro j hj
            cases j with
            | zero =>
              refine ⟨s, t, by simpa using pyGet_ok.mp h2, by simpa using pyGet_ok.mp h1, ?_⟩
              simpa using h3
            | succ j =>
              obtain ⟨s2, t2, hs2, ht2, hc2⟩ := helt j (by omega)
              have heq : i + 1 + j = i + (j + 1) := by omega
              refine ⟨s2, t2, ?_, ?_, ?_⟩
              · rw [← heq]; exact hs2
              · rw [← heq]; exact ht2
              · rw [← heq]; simpa using hc2

theorem part3Aux_spec (m : FPN) (els : List Tensor) :
    ∀ (k i : Nat) (l : List Tensor), part3Aux m els i k = Except.ok l →
      l.length = k ∧
      ∀ j, j < k →
        ∃ s t, m.extra_fpn_convs.get? (i + j) = some s ∧ els.get? (i + j) = some t ∧
          applyConvSame ConvTag.extraFpn (i + j) s t = Except.ok (l.getD j tZero) := by
  intro k
  induction k with
  | zero =>
    intro i l h
    simp only [part3Aux, Except.ok.injEq] at h
    subst h
    simp
  | succ k ih =>
    intro i l h
    simp only [part3Aux] at h
    cases h1 : pyGet els i with
    | error e => rw [h1] at h; simp only [] at h; exact Except.noConfusion h
    | ok t =>
      rw [h1] at h; simp only [] at h
      cases h2 : pyGet m.extra_fpn_convs i with
      | error e => rw [h2] at h; simp only [] at h; exact Except.noConfusion h
      | ok s =>
        rw [h2] at h; simp only [] at h
        cases h3 : applyConvSame ConvTag.extraFpn i s t with
        | error e => rw [h3] at h; simp only [] at h; exact Except.noConfusion h
        | ok u =>
          rw [h3] at h; simp only [] at h
          cases h4 : part3Aux m els (i + 1) k with
          | error e => rw [h4] at h; simp only [] at h; exact Except.noConfusion h
          | ok rest =>
            rw [h4] at h; simp only [Except.ok.injEq] at h
            subst h
            obtain ⟨hlen, helt⟩ := ih (i + 1) rest h4
            refine ⟨by simp [hlen], ?_⟩
            intro j hj
            cases j with
            | zero =>
              refine ⟨s, t, by simpa using pyGet_ok.mp h2, by simpa using pyGet_ok.mp h1, ?_⟩
              simpa using h3
            | succ j =>
              obtain ⟨s2, t2, hs2, ht2, hc2⟩ := helt j (by omega)
              have heq : i + 1 + j = i + (j + 1) := by omega
              refine ⟨s2, t2, ?_, ?_, ?_⟩
              · rw [← heq]; exact hs2
              · rw [← heq]; exact ht2
              · rw [← heq]; simpa using hc2

theorem getD_reverse {α : Type} {l : List α} {j : Nat} {d : α} (h : j < l.length) :
    l.reverse.getD j d = l.getD (l.length - 1 - j) d := by
  simp [List.getD_eq_getElem?_getD, List.getElem?_reverse h]

theorem extraLatAux_eq_chain (m : FPN) :
    ∀ (k : Nat) (prev : Tensor) (i : Nat) (acc : List Tensor),
      extraLatAux m prev i k acc =
        Except.map (fun c => c.reverse ++ acc) (transChain m prev i k) := by
  intro k
  induction k with
  | zero => intro prev i acc; simp [extraLatAux, transChain, Except.map]
  | succ k ih =>
    intro prev i acc
    simp only [extraLatAux, transChain]
    cases h1 : pyGet m.extra_trans_convs i with
    | error e => simp [Except.map]
    | ok s =>
      simp only []
      cases h2 : applyTransConv i s prev with
      | error e => simp [Except.map]
      | ok el =>
        simp only []
        rw [ih el (i + 1) (el :: acc)]
        cases h3 : transChain m el (i + 1) k with
        | error e => simp [Except.map]
        | ok rest => simp [Except.map]

theorem buildExtraLaterals_eq_chain (m : FPN) (lat0 : Tensor) :
    buildExtraLaterals m lat0 =
      Except.map List.reverse (transChain m lat0 0 m.num_extra_trans_convs) := by
  rw [buildExtraLaterals, extraLatAux_eq_chain]
  cases transChain m lat0 0 m.num_extra_trans_convs <;> simp [Except.map]

theorem transChain_heights (m : FPN) :
    ∀ (k : Nat) (prev : Tensor) (i : Nat) (c : List Tensor),
      transChain m prev i k = Except.ok c →
      c.length = k ∧
      (0 < k → (c.getD 0 tZero).height = 2 * prev.height ∧
        (c.getD 0 tZero).width = 2 * prev.width) ∧
      (∀ j, j + 1 < k → (c.getD (j + 1) tZero).height = 2 * (c.getD j tZero).height ∧
        (c.getD (j + 1) tZero).width = 2 * (c.getD j tZero).width) := by
  intro k
  induction k with
  | zero =>
    intro prev i c h
    simp only [transChain, Except.ok.injEq] at h
    subst h
    exact ⟨rfl, fun h0 => absurd h0 (by omega), fun j hj => absurd hj (by omega)⟩
  | succ k ih =>
    intro prev i c h
    simp only [transChain] at h
    cases h1 : pyGet m.extra_trans_convs i with
    | error e => rw [h1] at h; simp only [] at h; exact Except.noConfusion h
    | ok s =>
      rw [h1] at h; simp only [] at h
      cases h2 : applyTransConv i s prev with
      | error e => rw [h2] at h; simp only [] at h; exact Except.noConfusion h
      | ok el =>
        rw [h2] at h; simp only [] at h
        cases h3 : transChain m el (i + 1) k with
        | error e => rw [h3] at h; simp only [] at h; exact Except.noConfusion h
        | ok rest =>
          rw [h3] at h; simp only [Except.ok.injEq] at h
          subst h
          obtain ⟨hel, helv⟩ := applyTransConv_ok.mp h2
          obtain ⟨ihlen, ihhead, ihstep⟩ := ih el (i + 1) rest h3
          refine ⟨by simp [ihlen], ?_, ?_⟩
          · intro _
            simp only [List.getD_cons_zero]
            constructor <;> simp [helv]
          · intro j hj
            cases j with
            | zero =>
              have h0 : 0 < k := by omega
              obtain ⟨hh, hw⟩ := ihhead h0
              simp only [List.getD_cons_succ, List.getD_cons_zero]
              exact ⟨hh, hw⟩
            | succ j =>
              simp only [List.getD_cons_succ]
              exact ihstep j (by omega)

theorem buildExtraLaterals_spec {m : FPN} {lat0 : Tensor} {l : List Tensor}
    (h : buildExtraLaterals m lat0 = Except.ok l) :
    ∃ c, transChain m lat0 0 m.num_extra_trans_convs = Except.ok c ∧ l = c.reverse ∧
      l.length = m.num_extra_trans_convs ∧
      (∀ j, j + 1 < l.length →
        (l.getD j tZero).height = 2 * (l.getD (j + 1) tZero).height ∧
        (l.getD j tZero).width = 2 * (l.getD (j + 1) tZero).width) := by
  rw [buildExtraLaterals_eq_chain] at h
  cases hc : transChain m lat0 0 m.num_extra_trans_convs with
  | error e => rw [hc] at h; simp [Except.map] at h
  | ok c =>
    rw [hc] at h
    simp only [Except.map, Except.ok.injEq] at h
    subst h
    obtain ⟨hlen, _, hstep⟩ := transChain_heights m m.num_extra_trans_convs lat0 0 c hc
    refine ⟨c, rfl, rfl, by simp [hlen], ?_⟩
    intro j hj
    rw [List.length_reverse] at hj
    have hjc : j < c.length := by omega
    have hj1c : j + 1 < c.length := by omega
    rw [getD_reverse hjc, getD_reverse hj1c]
    have harith : c.length - 1 - j = (c.length - 1 - (j + 1)) + 1 := by omega
    rw [harith]
    exact hstep (c.length - 1 - (j + 1)) (by omega)

theorem poolLoop_eq_spec : ∀ (k : Nat) (outs : List Tensor),
    poolLoop outs k = specPoolLevels outs k := by
  intro k
  induction k with
  | zero =>
    intro outs
    cases houts : outs.getLast? <;>
      simp [poolLoop, specPoolLevels, houts, poolChain]
  | succ k ih =>
    intro outs
    simp only [poolLoop, pyLast]
    cases houts : outs.getLast? with
    | none => simp [specPoolLevels, houts]
    | some l =>
      simp only []
      rw [ih (outs ++ [maxpool2 l])]
      simp [specPoolLevels, houts, List.getLast?_concat, poolChain]

theorem extraConvLoop_eq_chain (m : FPN) :
    ∀ (k : Nat) (outs : List Tensor) (u : Tensor) (i : Nat),
      extraConvLoop m (outs ++ [u]) i k =
        Except.map (fun rest => outs ++ u :: rest) (specConvChain m u i k) := by
  intro k
  induction k with
  | zero => intro outs u i; simp [extraConvLoop, specConvChain, Except.map]
  | succ k ih =>
    intro outs u i
    simp only [extraConvLoop, specConvChain, pyLast, List.getLast?_concat]
    cases h1 : pyGet m.fpn_convs i with
    | error e => simp [Except.map]
    | ok s =>
      simp only []
      cases h2 : applyConvStride2 ConvTag.fpn i s
          (if m.relu_before_extra_convs then reluT u else u) with
      | error e => simp [Except.map]
      | ok u2 =>
        simp only []
        rw [ih (outs ++ [u]) u2 (i + 1)]
        cases h3 : specConvChain m u2 (i + 1) k with
        | error e => simp [Except.map]
        | ok rest => simp [Except.map]

/-- Claim C6: `part 2` of `forward` (lines 239-263) equals its specification:
when `num_outs` exceeds the number of backbone-derived outputs plus extra
transposed-conv outputs, the missing coarser levels are appended, by repeated
stride-2 max pooling of the previous coarsest output when `add_extra_convs`
is falsy, and otherwise by stride-2 3x3 convolutions whose first input is
dispatched by `add_extra_convs` (`'on_input'`: last backbone input,
`'on_lateral'`: last lateral, `'on_output'`: last output). -/
theorem part2_eq_specPart2 (m : FPN) (inputs lats extraLats : List Tensor)
    (used : Nat) (outs : List Tensor) :
    part2 m inputs lats extraLats used outs =
      specPart2 m inputs lats extraLats used outs := by
  unfold part2 specPart2
  split
  · split
    · exact poolLoop_eq_spec _ _
    · cases h1 : extraSource m inputs lats outs with
      | error e => simp only []
      | ok src =>
        simp only []
        cases h2 : pyGet m.fpn_convs used with
        | error e => simp only []
        | ok s =>
          simp only []
          cases h3 : applyConvStride2 ConvTag.fpn used s src with
          | error e => simp only []
          | ok u =>
            simp only []
            exact extraConvLoop_eq_chain m _ outs u (used + 1)
  · rfl

/-! ## Error classification: which exceptions each stage can raise -/

theorem normMap_err (inputs : List Tensor) :
    ∀ (cs : List Nat) (j : Nat) (e : PyErr),
      normMap inputs j cs = Except.error e → stageErr e := by
  intro cs
  induction cs with
  | nil => intro j e h; simp only [normMap] at h; exact Except.noConfusion h
  | cons c cs ih =>
    intro j e h
    simp only [normMap] at h
    cases h1 : pyGet inputs j with
    | error e1 =>
      rw [h1] at h; simp only [Except.error.injEq] at h
      subst h
      exact Or.inl (pyGet_err h1)
    | ok t =>
      rw [h1] at h; simp only [] at h
      cases h2 : applyNorm j c t with
      | error e2 =>
        rw [h2] at h; simp only [Except.error.injEq] at h
        subst h
        exact Or.inr (Or.inl (applyNorm_err h2))
      | ok u =>
        rw [h2] at h; simp only [] at h
        cases h3 : normMap inputs (j + 1) cs with
        | error e3 =>
          rw [h3] at h; simp only [Except.error.injEq] at h
          subst h
          exact ih (j + 1) e3 h3
        | ok rest => rw [h3] at h; simp only [] at h; exact Except.noConfusion h

theorem applyPreNorm_err {m : FPN} {inputs : List Tensor} {e : PyErr}
    (h : applyPreNorm m inputs = Except.error e) : stageErr e := by
  unfold applyPreNorm at h
  split at h
  · exact normMap_err inputs m.batch_norm 0 e h
  · exact Except.noConfusion h

theorem lateralsAux_err (m : FPN) (inputs : List Tensor) :
    ∀ (ss : List ConvSpec) (i : Nat) (e : PyErr),
      lateralsAux m inputs i ss = Except.error e → stageErr e := by
  intro ss
  induction ss with
  | nil => intro i e h; simp only [lateralsAux] at h; exact Except.noConfusion h
  | cons s ss ih =>
    intro i e h
    simp only [lateralsAux] at h
    cases h1 : pyGet inputs (i + m.start_level) with
    | error e1 =>
      rw [h1] at h; simp only [Except.error.injEq] at h
      subst h
      exact Or.inl (pyGet_err h1)
    | ok t =>
      rw [h1] at h; simp only [] at h
      cases h2 : applyConvSame ConvTag.lateral i s t with
      | error e2 =>
        rw [h2] at h; simp only [Except.error.injEq] at h
        subst h
        exact Or.inr (Or.inl (applyConvSame_err h2))
      | ok u =>
        rw [h2] at h; simp only [] at h
        cases h3 : lateralsAux m inputs (i + 1) ss with
        | error e3 =>
          rw [h3] at h; simp only [Except.error.injEq] at h
          subst h
          exact ih (i + 1) e3 h3
        | ok rest => rw [h3] at h; simp only [] at h; exact Except.noConfusion h

theorem topDownStep_err {m : FPN} {lats : List Tensor} {i : Nat} {e : PyErr}
    (h : topDownStep m lats i = Except.error e) : stageErr e := by
  simp only [topDownStep] at h
  cases h1 : pyGet lats i with
  | error e1 =>
    rw [h1] at h; simp only [Except.error.injEq] at h
    subst h
    exact Or.inl (pyGet_err h1)
  | ok hi =>
    rw [h1] at h; simp only [] at h
    cases h2 : pyGet lats (i - 1) with
    | error e2 =>
      rw [h2] at h; simp only [Except.error.injEq] at h
      subst h
      exact Or.inl (pyGet_err h2)
    | ok lo =>
      rw [h2] at h; simp only [] at h
      cases h3 : addT lo (interpTo m hi lo.height lo.width) with
      | error e3 =>
        rw [h3] at h; simp only [Except.error.injEq] at h
        subst h
        exact Or.inr (Or.inr (addT_err h3))
      | ok v => rw [h3] at h; simp only [] at h; exact Except.noConfusion h

theorem topDownGo_err (m : FPN) :
    ∀ (n : Nat) (lats : List Tensor) (e : PyErr),
      topDownGo m n lats = Except.error e → stageErr e := by
  intro n
  induction n with
  | zero => intro lats e h; simp only [topDownGo] at h; exact Except.noConfusion h
  | succ c ih =>
    intro lats e h
    simp only [topDownGo] at h
    cases h1 : topDownStep m lats (c + 1) with
    | error e1 =>
      rw [h1] at h; simp only [Except.error.injEq] at h
      subst h
      exact topDownStep_err h1
    | ok l2 =>
      rw [h1] at h; simp only [] at h
      exact ih l2 e h

theorem extraLatAux_err (m : FPN) :
    ∀ (k : Nat) (prev : Tensor) (i : Nat) (acc : List Tensor) (e : PyErr),
      extraLatAux m prev i k acc = Except.error e → stageErr e := by
  intro k
  induction k with
  | zero => intro prev i acc e h; simp only [extraLatAux] at h; exact Except.noConfusion h
  | succ k ih =>
    intro prev i acc e h
    simp only [extraLatAux] at h
    cases h1 : pyGet m.extra_trans_convs i with
    | error e1 =>
      rw [h1] at h; simp only [Except.error.injEq] at h
      subst h
      exact Or.inl (pyGet_err h1)
    | ok s =>
      rw [h1] at h; simp only [] at h
      cases h2 : applyTransConv i s prev with
      | error e2 =>
        rw [h2] at h; simp only [Except.error.injEq] at h
        subst h
        exact Or.inr (Or.inl (applyTransConv_err h2))
      | ok el =>
        rw [h2] at h; simp only [] at h
        exact ih el (i + 1) (el :: acc) e h

theorem buildExtraLaterals_err {m : FPN} {lat0 : Tensor} {e : PyErr}
    (h : buildExtraLaterals m lat0 = Except.error e) : stageErr e :=
  extraLatAux_err m m.num_extra_trans_convs lat0 0 [] e h

theorem part1Aux_err (m : FPN) (lats : List Tensor) :
    ∀ (k i : Nat) (e : PyErr),
      part1Aux m lats i k = Except.error e → stageErr e := by
  intro k
  induction k with
  | zero => intro i e h; simp only [part1Aux] at h; exact Except.noConfusion h
  | succ k ih =>
    intro i e h
    simp only [part1Aux] at h
    cases h1 : pyGet lats i with
    | error e1 =>
      rw [h1] at h; simp only [Except.error.injEq] at h
      subst h
      exact Or.inl (pyGet_err h1)
    | ok t =>
      rw [h1] at h; simp only [] at h
      cases h2 : pyGet m.fpn_convs i with
      | error e2 =>
        rw [h2] at h; simp only [Except.error.injEq] at h
        subst h
        exact Or.inl (pyGet_err h2)
      | ok s =>
        rw [h2] at h; simp only [] at h
        cases h3 : applyConvSame ConvTag.fpn i s t with
        | error e3 =>
          rw [h3] at h; simp only [Except.error.injEq] at h
          subst h
          exact Or.inr (Or.inl (applyConvSame_err h3))
        | ok u =>
          rw [h3] at h; simp only [] at h
          cases h4 : part1Aux m lats (i + 1) k with
          | error e4 =>
            rw [h4] at h; simp only [Except.error.injEq] at h
            subst h
            exact ih (i + 1) e4 h4
          | ok rest => rw [h4] at h; simp only [] at h; exact Except.noConfusion h

theorem poolLoop_err :
    ∀ (k : Nat) (outs : List Tensor) (e : PyErr),
      poolLoop outs k = Except.error e → stageErr e := by
  intro k
  induction k with
  | zero => intro outs e h; simp only [poolLoop] at h; exact Except.noConfusion h
  | succ k ih =>
    intro outs e h
    simp only [poolLoop] at h
    cases h1 : pyLast outs with
    | error e1 =>
      rw [h1] at h; simp only [Except.error.injEq] at h
      subst h
      exact Or.inl (pyLast_err h1)
    | ok l =>
      rw [h1] at h; simp only [] at h
      exact ih (outs ++ [maxpool2 l]) e h

theorem extraConvLoop_err (m : FPN) :
    ∀ (k : Nat) (outs : List Tensor) (i : Nat) (e : PyErr),
      extraConvLoop m outs i k = Except.error e → stageErr e := by
  intro k
  induction k with
  | zero => intro outs i e h; simp only [extraConvLoop] at h; exact Except.noConfusion h
  | succ k ih =>
    intro outs i e h
    simp only [extraConvLoop] at h
    cases h1 : pyLast outs with
    | error e1 =>
      rw [h1] at h; simp only [Except.error.injEq] at h
      subst h
      exact Or.inl (pyLast_err h1)
    | ok l =>
      rw [h1] at h; simp only [] at h
      cases h2 : pyGet m.fpn_convs i with
      | error e2 =>
        rw [h2] at h; simp only [Except.error.injEq] at h
        subst h
        exact Or.inl (pyGet_err h2)
      | ok s =>
        rw [h2] at h; simp only [] at h
        cases h3 : applyConvStride2 ConvTag.fpn i s
            (if m.relu_before_extra_convs then reluT l else l) with
        | error e3 =>
          rw [h3] at h; simp only [Except.error.injEq] at h
          subst h
          exact Or.inr (Or.inl (applyConvStride2_err h3))
        | ok u =>
          rw [h3] at h; simp only [] at h
          exact ih (outs ++ [u]) (i + 1) e h

theorem extraSource_err {m : FPN} {inputs lats outs : List Tensor} {e : PyErr}
    (h : extraSource m inputs lats outs = Except.error e) :
    stageErr e ∨ e = PyErr.notImplemented := by
  unfold extraSource at h
  split at h
  · exact Or.inl (Or.inl (pyGet_err h))
  · exact Or.inl (Or.inl (pyLast_err h))
  · exact Or.inl (Or.inl (pyLast_err h))
  · simp only [Except.error.injEq] at h
    exact Or.inr h.symm

theorem extraSource_err_dispatch {m : FPN} {inputs lats outs : List Tensor} {e : PyErr}
    (haec : m.add_extra_convs = ExtraConvsArg.str "on_input" ∨
      m.add_extra_convs = ExtraConvsArg.str "on_lateral" ∨
      m.add_extra_convs = ExtraConvsArg.str "on_output")
    (h : extraSource m inputs lats outs = Except.error e) : stageErr e := by
  unfold extraSource at h
  rcases haec with ha | ha | ha <;> rw [ha] at h <;>
    first
      | exact Or.inl (pyGet_err h)
      | exact Or.inl (pyLast_err h)

theorem part2_err {m : FPN} {inputs lats extraLats : List Tensor} {used : Nat}
    {outs : List Tensor} {e : PyErr}
    (h : part2 m inputs lats extraLats used outs = Except.error e) :
    stageErr e ∨ e = PyErr.notImplemented := by
  unfold part2 at h
  split at h
  · split at h
    · exact Or.inl (poolLoop_err _ outs e h)
    · cases h1 : extraSource m inputs lats outs with
      | error e1 =>
        rw [h1] at h; simp only [Except.error.injEq] at h
        subst h
        exact extraSource_err h1
      | ok src =>
        rw [h1] at h; simp only [] at h
        cases h2 : pyGet m.fpn_convs used with
        | error e2 =>
          rw [h2] at h; simp only [Except.error.injEq] at h
          subst h
          exact Or.inl (Or.inl (pyGet_err h2))
        | ok s =>
          rw [h2] at h; simp only [] at h
          cases h3 : applyConvStride2 ConvTag.fpn used s src with
          | error e3 =>
            rw [h3] at h; simp only [Except.error.injEq] at h
            subst h
            exact Or.inl (Or.inr (Or.inl (applyConvStride2_err h3)))
          | ok u =>
            rw [h3] at h; simp only [] at h
            exact Or.inl (extraConvLoop_err m _ (outs ++ [u]) (used + 1) e h)
  · exact Except.noConfusion h

theorem part2_err_dispatch {m : FPN} {inputs lats extraLats : List Tensor} {used : Nat}
    {outs : List Tensor} {e : PyErr}
    (haec : m.add_extra_convs = ExtraConvsArg.bool false ∨
      m.add_extra_convs = ExtraConvsArg.str "on_input" ∨
      m.add_extra_convs = ExtraConvsArg.str "on_lateral" ∨
      m.add_extra_convs = ExtraConvsArg.str "on_output")
    (h : part2 m inputs lats extraLats used outs = Except.error e) : stageErr e := by
  unfold part2 at h
  split at h
  · split at h
    · exact poolLoop_err _ outs e h
    · rename_i htruthy
      have haec2 : m.add_extra_convs = ExtraConvsArg.str "on_input" ∨
          m.add_extra_convs = ExtraConvsArg.str "on_lateral" ∨
          m.add_extra_convs = ExtraConvsArg.str "on_output" := by
        rcases haec with ha | ha
        · rw [ha] at htruthy; simp [ExtraConvsArg.truthy] at htruthy
        · exact ha
      cases h1 : extraSource m inputs lats outs with
      | error e1 =>
        rw [h1] at h; simp only [Except.error.injEq] at h
        subst h
        exact extraSource_err_dispatch haec2 h1
      | ok src =>
        rw [h1] at h; simp only [] at h
        cases h2 : pyGet m.fpn_convs used with
        | error e2 =>
          rw [h2] at h; simp only [Except.error.injEq] at h
          subst h
          exact Or.inl (pyGet_err h2)
        | ok s =>
          rw [h2] at h; simp only [] at h
          cases h3 : applyConvStride2 ConvTag.fpn used s src with
          | error e3 =>
            rw [h3] at h; simp only [Except.error.injEq] at h
            subst h
            exact Or.inr (Or.inl (applyConvStride2_err h3))
          | ok u =>
            rw [h3] at h; simp only [] at h
            exact extraConvLoop_err m _ (outs ++ [u]) (used + 1) e h
  · exact Except.noConfusion h

theorem part3Aux_err (m : FPN) (els : List Tensor) :
    ∀ (k i : Nat) (e : PyErr),
      part3Aux m els i k = Except.error e → stageErr e := by
  intro k
  induction k with
  | zero => intro i e h; simp only [part3Aux] at h; exact Except.noConfusion h
  | succ k ih =>
    intro i e h
    simp only [part3Aux] at h
    cases h1 : pyGet els i with
    | error e1 =>
      rw [h1] at h; simp only [Except.error.injEq] at h
      subst h
      exact Or.inl (pyGet_err h1)
    | ok t =>
      rw [h1] at h; simp only [] at h
      cases h2 : pyGet m.extra_fpn_convs i with
      | error e2 =>
        rw [h2] at h; simp only [Except.error.injEq] at h
        subst h
        exact Or.inl (pyGet_err h2)
      | ok s =>
        rw [h2] at h; simp only [] at h
        cases h3 : applyConvSame ConvTag.extraFpn i s t with
        | error e3 =>
          rw [h3] at h; simp only [Except.error.injEq] at h
          subst h
          exact Or.inr (Or.inl (applyConvSame_err h3))
        | ok u =>
          rw [h3] at h; simp only [] at h
          cases h4 : part3Aux m els (i + 1) k with
          | error e4 =>
            rw [h4] at h; simp only [Except.error.injEq] at h
            subst h
            exact ih (i + 1) e4 h4
          | ok rest => rw [h4] at h; simp only [] at h; exact Except.noConfusion h

/-! ## Inversion of `forwardParts` and `forward` -/

theorem forwardParts_ok_inversion {m : FPN} {inputs0 el outs2 : List Tensor}
    (h : forwardParts m inputs0 = Except.ok (el, outs2)) :
    inputs0.length = m.in_channels.length ∧
    ∃ inputs laterals laterals2 outs,
      applyPreNorm m inputs0 = Except.ok inputs ∧
      buildLaterals m inputs = Except.ok laterals ∧
      topDown m laterals = Except.ok laterals2 ∧
      (if 0 < m.num_extra_trans_convs then
        ∃ l0, pyGet laterals2 0 = Except.ok l0 ∧ buildExtraLaterals m l0 = Except.ok el
      else el = []) ∧
      part1Outs m laterals2 laterals.length = Except.ok outs ∧
      part2 m inputs laterals2 el laterals.length outs = Except.ok outs2 := by
  unfold forwardParts at h
  split at h
  case isTrue hlen =>
    refine ⟨hlen, ?_⟩
    cases h1 : applyPreNorm m inputs0 with
    | error e => rw [h1] at h; simp only [] at h; exact Except.noConfusion h
    | ok inputs =>
      rw [h1] at h; simp only [] at h
      cases h2 : buildLaterals m inputs with
      | error e => rw [h2] at h; simp only [] at h; exact Except.noConfusion h
      | ok laterals =>
        rw [h2] at h; simp only [] at h
        cases h3 : topDown m laterals with
        | error e => rw [h3] at h; simp only [] at h; exact Except.noConfusion h
        | ok laterals2 =>
          rw [h3] at h; simp only [] at h
          by_cases hn : 0 < m.num_extra_trans_convs
          · rw [if_pos hn] at h
            cases h4 : pyGet laterals2 0 with
            | error e => rw [h4] at h; simp only [] at h; exact Except.noConfusion h
            | ok l0 =>
              rw [h4] at h; simp only [] at h
              cases h5 : buildExtraLaterals m l0 with
              | error e => rw [h5] at h; simp only [] at h; exact Except.noConfusion h
              | ok extraLats =>
                rw [h5] at h; simp only [] at h
                cases h6 : part1Outs m laterals2 laterals.length with
                | error e => rw [h6] at h; simp only [] at h; exact Except.noConfusion h
                | ok outs =>
                  rw [h6] at h; simp only [] at h
                  cases h7 : part2 m inputs laterals2 extraLats laterals.length outs with
                  | error e => rw [h7] at h; simp only [] at h; exact Except.noConfusion h
                  | ok o2 =>
                    rw [h7] at h
                    simp only [Except.ok.injEq, Prod.mk.injEq] at h
                    obtain ⟨hel, ho⟩ := h
                    subst hel; subst ho
                    exact ⟨inputs, laterals, laterals2, outs, rfl, h2, h3,
                      by rw [if_pos hn]; exact ⟨l0, h4, h5⟩, h6, h7⟩
          · rw [if_neg hn] at h
            simp only [] at h
            cases h6 : part1Outs m laterals2 laterals.length with
            | error e => rw [h6] at h; simp only [] at h; exact Except.noConfusion h
            | ok outs =>
              rw [h6] at h; simp only [] at h
              cases h7 : part2 m inputs laterals2 [] laterals.length outs with
              | error e => rw [h7] at h; simp only [] at h; exact Except.noConfusion h
              | ok o2 =>
                rw [h7] at h
                simp only [Except.ok.injEq, Prod.mk.injEq] at h
                obtain ⟨hel, ho⟩ := h
                subst ho
                refine ⟨inputs, laterals, laterals2, outs, rfl, h2, h3,
                  by rw [if_neg hn]; exact hel.symm, h6, ?_⟩
                rw [← hel]
                exact h7
  case isFalse hlen => exact Except.noConfusion h

theorem forwardParts_err {m : FPN} {inputs0 : List Tensor} {e : PyErr}
    (h : forwardParts m inputs0 = Except.error e) :
    (e = PyErr.assertInputLen ∧ inputs0.length ≠ m.in_channels.length) ∨
      stageErr e ∨ e = PyErr.notImplemented := by
  unfold forwardParts at h
  split at h
  case isTrue hlen =>
    refine Or.inr ?_
    cases h1 : applyPreNorm m inputs0 with
    | error e1 =>
      rw [h1] at h; simp only [Except.error.injEq] at h
      subst h
      exact Or.inl (applyPreNorm_err h1)
    | ok inputs =>
      rw [h1] at h; simp only [] at h
      cases h2 : buildLaterals m inputs with
      | error e2 =>
        rw [h2] at h; simp only [Except.error.injEq] at h
        subst h
        exact Or.inl (lateralsAux_err m inputs m.lateral_convs 0 e2 h2)
      | ok laterals =>
        rw [h2] at h; simp only [] at h
        cases h3 : topDown m laterals with
        | error e3 =>
          rw [h3] at h; simp only [Except.error.injEq] at h
          subst h
          exact Or.inl (topDownGo_err m (laterals.length - 1) laterals e3 h3)
        | ok laterals2 =>
          rw [h3] at h; simp only [] at h
          cases h4 : (if 0 < m.num_extra_trans_convs then
              match pyGet laterals2 0 with
              | Except.error e => Except.error e
              | Except.ok l0 => buildExtraLaterals m l0
            else Except.ok ([] : List Tensor)) with
          | error e4 =>
            rw [h4] at h; simp only [Except.error.injEq] at h
            subst h
            refine Or.inl ?_
            split at h4
            · cases h5 : pyGet laterals2 0 with
              | error e5 =>
                rw [h5] at h4; simp only [Except.error.injEq] at h4
                subst h4
                exact Or.inl (pyGet_err h5)
              | ok l0 =>
                rw [h5] at h4; simp only [] at h4
                exact buildExtraLaterals_err h4
            · exact Except.noConfusion h4
          | ok extraLats =>
            rw [h4] at h; simp only [] at h
            cases h6 : part1Outs m laterals2 laterals.length with
            | error e6 =>
              rw [h6] at h; simp only [Except.error.injEq] at h
              subst h
              exact Or.inl (part1Aux_err m laterals2 laterals.length 0 e6 h6)
            | ok outs =>
              rw [h6] at h; simp only [] at h
              cases h7 : part2 m inputs laterals2 extraLats laterals.length outs with
              | error e7 =>
                rw [h7] at h; simp only [Except.error.injEq] at h
                subst h
                exact part2_err h7
              | ok o2 => rw [h7] at h; simp only [] at h; exact Except.noConfusion h
  case isFalse hlen =>
    simp only [Except.error.injEq] at h
    exact Or.inl ⟨h.symm, hlen⟩

theorem forward_ok_inversion {m : FPN} {inputs0 : List Tensor} {v : PyValue}
    (h : forward m inputs0 = Except.ok v) :
    ∃ extraLats outs extraOuts,
      forwardParts m inputs0 = Except.ok (extraLats, outs) ∧
      0 < m.num_extra_trans_convs ∧
      part3 m extraLats = Except.ok extraOuts ∧
      extraOuts.length + outs.length = m.num_outs ∧
      v = PyValue.tuple (extraOuts ++ outs) := by
  unfold forward at h
  cases h1 : forwardParts m inputs0 with
  | error e => rw [h1] at h; simp only [] at h; exact Except.noConfusion h
  | ok p =>
    obtain ⟨extraLats, outs⟩ := p
    rw [h1] at h; simp only [] at h
    split at h
    case isTrue hn =>
      cases h2 : part3 m extraLats with
      | error e => rw [h2] at h; simp only [] at h; exact Except.noConfusion h
      | ok extraOuts =>
        rw [h2] at h; simp only [] at h
        split at h
        case isTrue hassert =>
          simp only [Except.ok.injEq] at h
          exact ⟨extraLats, outs, extraOuts, rfl, hn, h2, hassert, h.symm⟩
        case isFalse hassert => exact Except.noConfusion h
    case isFalse hn => exact Except.noConfusion h

theorem forward_err {m : FPN} {inputs0 : List Tensor} {e : PyErr}
    (h : forward m inputs0 = Except.error e) :
    (e = PyErr.assertInputLen ∧ inputs0.length ≠ m.in_channels.length) ∨
      stageErr e ∨ e = PyErr.notImplemented ∨ e = PyErr.assertOutLen ∨
      e = PyErr.nameErrorExtraOuts := by
  unfold forward at h
  cases h1 : forwardParts m inputs0 with
  | error e1 =>
    rw [h1] at h; simp only [Except.error.injEq] at h
    subst h
    rcases forwardParts_err h1 with h2 | h2 | h2
    · exact Or.inl h2
    · exact Or.inr (Or.inl h2)
    · exact Or.inr (Or.inr (Or.inl h2))
  | ok p =>
    obtain ⟨extraLats, outs⟩ := p
    rw [h1] at h; simp only [] at h
    split at h
    case isTrue hn =>
      cases h2 : part3 m extraLats with
      | error e2 =>
        rw [h2] at h; simp only [Except.error.injEq] at h
        subst h
        exact Or.inr (Or.inl (part3Aux_err m extraLats m.num_extra_trans_convs 0 e2 h2))
      | ok extraOuts =>
        rw [h2] at h; simp only [] at h
        split at h
        case isTrue hassert => exact Except.noConfusion h
        case isFalse hassert =>
          simp only [Except.error.injEq] at h
          subst h
          exact Or.inr (Or.inr (Or.inr (Or.inl rfl)))
    case isFalse hn =>
      simp only [Except.error.injEq] at h
      subst h
      exact Or.inr (Or.inr (Or.inr (Or.inr rfl)))

/-! ## Characterizations of `init` -/

theorem backboneEnd_ok_iff (cfg : FPNConfig) :
    resOk (backboneEnd cfg) = true ↔
      (if cfg.end_level = -1 then
        ((cfg.in_channels.length : Int) - (cfg.start_level : Int) ≤ (cfg.num_outs : Int))
      else
        (cfg.end_level ≤ (cfg.in_channels.length : Int) ∧
          (cfg.num_outs : Int) = cfg.end_level - (cfg.start_level : Int))) := by
  unfold backboneEnd resOk
  split_ifs <;> simp_all

theorem backboneEnd_ok_val {cfg : FPNConfig} {bel : Nat}
    (h : backboneEnd cfg = Except.ok bel) : (bel : Int) = belSpec cfg := by
  unfold backboneEnd at h
  unfold belSpec
  split_ifs at h with h1 h2 h2 <;> simp_all
  omega

theorem resolveAEC_ok_iff (cfg : FPNConfig) :
    resOk (resolveAEC cfg) = true ↔
      (match cfg.add_extra_convs with
        | .str s => s ∈ allowedExtraStr
        | .bool _ => True) := by
  unfold resolveAEC resOk
  cases cfg.add_extra_convs with
  | str s => by_cases hm : s ∈ allowedExtraStr <;> simp [hm]
  | bool b => cases b <;> simp

theorem resolveAEC_ok_cases {cfg : FPNConfig} {aec : ExtraConvsArg}
    (h : resolveAEC cfg = Except.ok aec) :
    (aec = ExtraConvsArg.bool false ∨ aec = ExtraConvsArg.str "on_input" ∨
      aec = ExtraConvsArg.str "on_lateral" ∨ aec = ExtraConvsArg.str "on_output") ∧
    (cfg.add_extra_convs = ExtraConvsArg.bool true →
      aec = ExtraConvsArg.str
        (if cfg.extra_convs_on_inputs then "on_input" else "on_output")) ∧
    aec ≠ ExtraConvsArg.bool true := by
  unfold resolveAEC at h
  cases hA : cfg.add_extra_convs with
  | str s =>
    rw [hA] at h; simp only [] at h
    split_ifs at h with hmem
    · simp only [Except.ok.injEq] at h
      subst h
      simp only [allowedExtraStr, List.mem_cons, List.mem_singleton] at hmem
      refine ⟨?_, fun hT => by simp at hT, by simp⟩
      rcases hmem with h | h | h | h
      · exact Or.inr (Or.inl (by rw [h]))
      · exact Or.inr (Or.inr (Or.inl (by rw [h])))
      · exact Or.inr (Or.inr (Or.inr (by rw [h])))
      · exact absurd h (by simp [List.mem_nil_iff] at h ⊢)
  | bool b =>
    cases b
    · rw [hA] at h; simp only [Except.ok.injEq] at h
      subst h
      exact ⟨Or.inl rfl, fun hT => by simp at hT, by simp⟩
    · rw [hA] at h; simp only [Except.ok.injEq] at h
      subst h
      refine ⟨?_, fun _ => rfl, by split <;> simp⟩
      split
      · exact Or.inr (Or.inl rfl)
      · exact Or.inr (Or.inr (Or.inr rfl))

theorem backboneEnd_err {cfg : FPNConfig} {e : PyErr}
    (h : backboneEnd cfg = Except.error e) : e = PyErr.assertConfig := by
  unfold backboneEnd at h
  split_ifs at h
  · simp only [Except.error.injEq] at h
    exact h.symm
  · simp only [Except.error.injEq] at h
    exact h.symm

theorem resolveAEC_err {cfg : FPNConfig} {e : PyErr}
    (h : resolveAEC cfg = Except.error e) : e = PyErr.assertConfig := by
  unfold resolveAEC at h
  cases hA : cfg.add_extra_convs with
  | str s =>
    rw [hA] at h
    simp only [] at h
    split_ifs at h
    simp only [Except.error.injEq] at h
    exact h.symm
  | bool b =>
    cases b
    · rw [hA] at h; simp only [] at h; exact Except.noConfusion h
    · rw [hA] at h; simp only [] at h; exact Except.noConfusion h

theorem pyGetSigned_err {α : Type} {xs : List α} {i : Int} {e : PyErr}
    (h : pyGetSigned xs i = Except.error e) : e = PyErr.indexError := by
  unfold pyGetSigned at h
  simp only [] at h
  split_ifs at h
  · simp only [Except.error.injEq] at h
    exact h.symm
  all_goals
    split at h
    · exact Except.noConfusion h
    · simp only [Except.error.injEq] at h
      exact h.symm

theorem extraFpnInC_err {cfg : FPNConfig} {bel : Nat} {aec : ExtraConvsArg} {e : PyErr}
    (h : extraFpnInC cfg bel aec = Except.error e) : e = PyErr.indexError := by
  unfold extraFpnInC at h
  simp only [] at h
  split_ifs at h
  exact pyGetSigned_err h

theorem init_ok_inversion {cfg : FPNConfig} {m : FPN} (h : init cfg = Except.ok m) :
    ∃ bel aec c0, backboneEnd cfg = Except.ok bel ∧ resolveAEC cfg = Except.ok aec ∧
      (cfg.num_extra_trans_convs : Int) ≤
        (cfg.num_outs : Int) - (bel : Int) + (cfg.start_level : Int) ∧
      extraFpnInC cfg bel aec = Except.ok c0 ∧
      m = mkModules cfg bel aec c0 := by
  unfold init at h
  cases h1 : backboneEnd cfg with
  | error e => rw [h1] at h; simp only [] at h; exact Except.noConfusion h
  | ok bel =>
    rw [h1] at h; simp only [] at h
    cases h2 : resolveAEC cfg with
    | error e => rw [h2] at h; simp only [] at h; exact Except.noConfusion h
    | ok aec =>
      rw [h2] at h; simp only [] at h
      split at h
      case isTrue hc =>
        cases h3 : extraFpnInC cfg bel aec with
        | error e => rw [h3] at h; simp only [] at h; exact Except.noConfusion h
        | ok c0 =>
          rw [h3] at h
          simp only [Except.ok.injEq] at h
          exact ⟨bel, aec, c0, rfl, rfl, hc, h3, h.symm⟩
      case isFalse hc => exact Except.noConfusion h

theorem init_fields {cfg : FPNConfig} {m : FPN} (h : init cfg = Except.ok m) :
    m.out_channels = cfg.out_channels ∧
    m.num_extra_trans_convs = cfg.num_extra_trans_convs ∧
    (∀ s ∈ m.fpn_convs, s.outC = cfg.out_channels) ∧
    (∀ s ∈ m.extra_fpn_convs, s.outC = cfg.out_channels) := by
  obtain ⟨bel, aec, c0, _, _, _, _, hm⟩ := init_ok_inversion h
  subst hm
  refine ⟨rfl, rfl, ?_, ?_⟩
  · intro s hs
    simp only [mkModules] at hs
    rcases List.mem_append.mp hs with h1 | h1
    · obtain ⟨i, _, hi⟩ := List.mem_map.mp h1
      rw [← hi]
    · split at h1
      · obtain ⟨i, _, hi⟩ := List.mem_map.mp h1
        split at hi <;> rw [← hi]
      · simp at h1
  · intro s hs
    simp only [mkModules] at hs
    rw [List.mem_replicate] at hs
    rw [hs.2]

/-- Claim C8: `EfficientViTFPN.__init__` raises an assertion error exactly
when the configuration is inconsistent: when `end_level == -1` it requires
`num_outs >= len(in_channels) - start_level`; when `end_level != -1` it
requires `end_level <= len(in_channels)` and
`num_outs == end_level - start_level`; `add_extra_convs` must be a bool or
one of `'on_input'`/`'on_lateral'`/`'on_output'` (being a bool or str at all,
like `in_channels` being a list, is enforced by the argument types of the
embedding); and
`num_outs - backbone_end_level + start_level >= num_extra_trans_convs`.
A consistent configuration can still crash without an assertion error: with
the resolved `add_extra_convs = 'on_input'`, at least one extra conv level
and empty `in_channels`, line 152 raises an `IndexError`; the second conjunct
shows assertion errors and that `IndexError` are the only failure modes of
`__init__`. -/
theorem init_assert_error_iff_inconsistent (cfg : FPNConfig) :
    (init cfg = Except.error PyErr.assertConfig ↔ ¬ initConsistent cfg) ∧
    (∀ e, init cfg = Except.error e →
      e = PyErr.assertConfig ∨ e = PyErr.indexError) := by
  constructor
  · unfold init initConsistent
    cases h1 : backboneEnd cfg with
    | error e =>
      have he := backboneEnd_err h1
      subst he
      constructor
      · intro _ hIC
        have := (backboneEnd_ok_iff cfg).mpr hIC.1
        rw [h1] at this
        simp [resOk] at this
      · intro _
        rfl
    | ok bel =>
      have hbel := backboneEnd_ok_val h1
      have hcond1 := (backboneEnd_ok_iff cfg).mp (by rw [h1]; rfl)
      cases h2 : resolveAEC cfg with
      | error e =>
        have he := resolveAEC_err h2
        subst he
        constructor
        · intro _ hIC
          have := (resolveAEC_ok_iff cfg).mpr hIC.2.1
          rw [h2] at this
          simp [resOk] at this
        · intro _
          rfl
      | ok aec =>
        have hcond2 := (resolveAEC_ok_iff cfg).mp (by rw [h2]; rfl)
        simp only []
        split
        case isTrue hc =>
          constructor
          · intro hbad
            exfalso
            cases h3 : extraFpnInC cfg bel aec with
            | error e =>
              rw [h3] at hbad
              simp only [Except.error.injEq] at hbad
              have := extraFpnInC_err h3
              rw [this] at hbad
              exact PyErr.noConfusion hbad
            | ok c0 =>
              rw [h3] at hbad
              simp only [] at hbad
              exact Except.noConfusion hbad
          · intro hIC
            exact absurd ⟨hcond1, hcond2, by rw [← hbel]; exact hc⟩ hIC
        case isFalse hc =>
          constructor
          · intro _ hIC
            exact hc (by rw [hbel]; exact hIC.2.2)
          · intro _
            rfl
  · intro e h
    unfold init at h
    cases h1 : backboneEnd cfg with
    | error e1 =>
      rw [h1] at h
      simp only [Except.error.injEq] at h
      subst h
      exact Or.inl (backboneEnd_err h1)
    | ok bel =>
      rw [h1] at h; simp only [] at h
      cases h2 : resolveAEC cfg with
      | error e2 =>
        rw [h2] at h
        simp only [Except.error.injEq] at h
        subst h
        exact Or.inl (resolveAEC_err h2)
      | ok aec =>
        rw [h2] at h; simp only [] at h
        split at h
        case isTrue hc =>
          cases h3 : extraFpnInC cfg bel aec with
          | error e3 =>
            rw [h3] at h
            simp only [Except.error.injEq] at h
            subst h
            exact Or.inr (extraFpnInC_err h3)
          | ok c0 => rw [h3] at h; simp only [] at h; exact Except.noConfusion h
        case isFalse hc =>
          simp only [Except.error.injEq] at h
          subst h
          exact Or.inl rfl

/-! ## Channel-count invariants -/

theorem getLast?_some_mem {α : Type} {l : List α} {x : α}
    (h : l.getLast? = some x) : x ∈ l := by
  obtain ⟨hne, hx⟩ := List.mem_getLast?_eq_getLast (Option.mem_def.mpr h)
  subst hx
  exact List.getLast_mem hne

theorem part1Aux_channels {m : FPN} {lats : List Tensor} {C : Nat}
    (hf : ∀ s ∈ m.fpn_convs, s.outC = C) :
    ∀ (k i : Nat) (l : List Tensor), part1Aux m lats i k = Except.ok l →
      ∀ t ∈ l, t.channels = C := by
  intro k
  induction k with
  | zero =>
    intro i l h
    simp only [part1Aux, Except.ok.injEq] at h
    subst h
    simp
  | succ k ih =>
    intro i l h
    simp only [part1Aux] at h
    cases h1 : pyGet lats i with
    | error e => rw [h1] at h; simp only [] at h; exact Except.noConfusion h
    | ok t =>
      rw [h1] at h; simp only [] at h
      cases h2 : pyGet m.fpn_convs i with
      | error e => rw [h2] at h; simp only [] at h; exact Except.noConfusion h
      | ok s =>
        rw [h2] at h; simp only [] at h
        cases h3 : applyConvSame ConvTag.fpn i s t with
        | error e => rw [h3] at h; simp only [] at h; exact Except.noConfusion h
        | ok u =>
          rw [h3] at h; simp only [] at h
          cases h4 : part1Aux m lats (i + 1) k with
          | error e => rw [h4] at h; simp only [] at h; exact Except.noConfusion h
          | ok rest =>
            rw [h4] at h; simp only [Except.ok.injEq] at h
            subst h
            intro x hx
            rcases List.mem_cons.mp hx with hx | hx
            · subst hx
              rw [(applyConvSame_ok.mp h3).2]
              exact hf s (List.get?_mem (pyGet_ok.mp h2))
            · exact ih (i + 1) rest h4 x hx

theorem poolLoop_channels {C : Nat} :
    ∀ (k : Nat) (outs r : List Tensor), (∀ t ∈ outs, t.channels = C) →
      poolLoop outs k = Except.ok r → ∀ t ∈ r, t.channels = C := by
  intro k
  induction k with
  | zero =>
    intro outs r houts h
    simp only [poolLoop, Except.ok.injEq] at h
    subst h
    exact houts
  | succ k ih =>
    intro outs r houts h
    simp only [poolLoop] at h
    cases h1 : pyLast outs with
    | error e => rw [h1] at h; simp only [] at h; exact Except.noConfusion h
    | ok l =>
      rw [h1] at h; simp only [] at h
      refine ih (outs ++ [maxpool2 l]) r ?_ h
      intro t ht
      rcases List.mem_append.mp ht with ht | ht
      · exact houts t ht
      · rw [List.mem_singleton.mp ht]
        exact houts l (getLast?_some_mem (pyLast_ok.mp h1))

theorem extraConvLoop_channels {m : FPN} {C : Nat}
    (hf : ∀ s ∈ m.fpn_convs, s.outC = C) :
    ∀ (k : Nat) (outs : List Tensor) (i : Nat) (r : List Tensor),
      (∀ t ∈ outs, t.channels = C) →
      extraConvLoop m outs i k = Except.ok r → ∀ t ∈ r, t.channels = C := by
  intro k
  induction k with
  | zero =>
    intro outs i r houts h
    simp only [extraConvLoop, Except.ok.injEq] at h
    subst h
    exact houts
  | succ k ih =>
    intro outs i r houts h
    simp only [extraConvLoop] at h
    cases h1 : pyLast outs with
    | error e => rw [h1] at h; simp only [] at h; exact Except.noConfusion h
    | ok l =>
      rw [h1] at h; simp only [] at h
      cases h2 : pyGet m.fpn_convs i with
      | error e => rw [h2] at h; simp only [] at h; exact Except.noConfusion h
      | ok s =>
        rw [h2] at h; simp only [] at h
        cases h3 : applyConvStride2 ConvTag.fpn i s
            (if m.relu_before_extra_convs then reluT l else l) with
        | error e => rw [h3] at h; simp only [] at h; exact Except.noConfusion h
        | ok u =>
          rw [h3] at h; simp only [] at h
          refine ih (outs ++ [u]) (i + 1) r ?_ h
          intro t ht
          rcases List.mem_append.mp ht with ht | ht
          · exact houts t ht
          · rw [List.mem_singleton.mp ht]
            rw [(applyConvStride2_ok.mp h3).2]
            exact hf s (List.get?_mem (pyGet_ok.mp h2))

theorem part2_channels {m : FPN} {C : Nat} {inputs lats extraLats : List Tensor}
    {used : Nat} {outs r : List Tensor}
    (hf : ∀ s ∈ m.fpn_convs, s.outC = C)
    (houts : ∀ t ∈ outs, t.channels = C)
    (h : part2 m inputs lats extraLats used outs = Except.ok r) :
    ∀ t ∈ r, t.channels = C := by
  unfold part2 at h
  split at h
  · split at h
    · exact poolLoop_channels _ outs r houts h
    · cases h1 : extraSource m inputs lats outs with
      | error e => rw [h1] at h; simp only [] at h; exact Except.noConfusion h
      | ok src =>
        rw [h1] at h; simp only [] at h
        cases h2 : pyGet m.fpn_convs used with
        | error e => rw [h2] at h; simp only [] at h; exact Except.noConfusion h
        | ok s =>
          rw [h2] at h; simp only [] at h
          cases h3 : applyConvStride2 ConvTag.fpn used s src with
          | error e => rw [h3] at h; simp only [] at h; exact Except.noConfusion h
          | ok u =>
            rw [h3] at h; simp only [] at h
            refine extraConvLoop_channels hf _ (outs ++ [u]) (used + 1) r ?_ h
            intro t ht
            rcases List.mem_append.mp ht with ht | ht
            · exact houts t ht
            · rw [List.mem_singleton.mp ht]
              rw [(applyConvStride2_ok.mp h3).2]
              exact hf s (List.get?_mem (pyGet_ok.mp h2))
  · simp only [Except.ok.injEq] at h
    subst h
    exact houts

theorem part3Aux_channels {m : FPN} {els : List Tensor} {C : Nat}
    (hf : ∀ s ∈ m.extra_fpn_convs, s.outC = C) :
    ∀ (k i : Nat) (l : List Tensor), part3Aux m els i k = Except.ok l →
      ∀ t ∈ l, t.channels = C := by
  intro k
  induction k with
  | zero =>
    intro i l h
    simp only [part3Aux, Except.ok.injEq] at h
    subst h
    simp
  | succ k ih =>
    intro i l h
    simp only [part3Aux] at h
    cases h1 : pyGet els i with
    | error e => rw [h1] at h; simp only [] at h; exact Except.noConfusion h
    | ok t =>
      rw [h1] at h; simp only [] at h
      cases h2 : pyGet m.extra_fpn_convs i with
      | error e => rw [h2] at h; simp only [] at h; exact Except.noConfusion h
      | ok s =>
        rw [h2] at h; simp only [] at h
        cases h3 : applyConvSame ConvTag.extraFpn i s t with
        | error e => rw [h3] at h; simp only [] at h; exact Except.noConfusion h
        | ok u =>
          rw [h3] at h; simp only [] at h
          cases h4 : part3Aux m els (i + 1) k with
          | error e => rw [h4] at h; simp only [] at h; exact Except.noConfusion h
          | ok rest =>
            rw [h4] at h; simp only [Except.ok.injEq] at h
            subst h
            intro x hx
            rcases List.mem_cons.mp hx with hx | hx
            · subst hx
              rw [(applyConvSame_ok.mp h3).2]
              exact hf s (List.get?_mem (pyGet_ok.mp h2))
            · exact ih (i + 1) rest h4 x hx

theorem forwardParts_err_dispatch {m : FPN} {inputs0 : List Tensor} {e : PyErr}
    (haec : m.add_extra_convs = ExtraConvsArg.bool false ∨
      m.add_extra_convs = ExtraConvsArg.str "on_input" ∨
      m.add_extra_convs = ExtraConvsArg.str "on_lateral" ∨
      m.add_extra_convs = ExtraConvsArg.str "on_output")
    (h : forwardParts m inputs0 = Except.error e) :
    e = PyErr.assertInputLen ∨ stageErr e := by
  rcases forwardParts_err h with h1 | h1 | h1
  · exact Or.inl h1.1
  · exact Or.inr h1
  · subst h1
    exfalso
    unfold forwardParts at h
    split at h
    case isFalse hlen => simp only [Except.error.injEq] at h; exact PyErr.noConfusion h
    case isTrue hlen =>
      cases h1 : applyPreNorm m inputs0 with
      | error e1 =>
        rw [h1] at h; simp only [Except.error.injEq] at h
        rcases applyPreNorm_err h1 with h' | h' | h' <;> rw [h] at h' <;>
          exact PyErr.noConfusion h'
      | ok inputs =>
        rw [h1] at h; simp only [] at h
        cases h2 : buildLaterals m inputs with
        | error e2 =>
          rw [h2] at h; simp only [Except.error.injEq] at h
          rcases lateralsAux_err m inputs m.lateral_convs 0 e2 h2 with h' | h' | h' <;>
            rw [h] at h' <;> exact PyErr.noConfusion h'
        | ok laterals =>
          rw [h2] at h; simp only [] at h
          cases h3 : topDown m laterals with
          | error e3 =>
            rw [h3] at h; simp only [Except.error.injEq] at h
            rcases topDownGo_err m (laterals.length - 1) laterals e3 h3 with h' | h' | h' <;>
              rw [h] at h' <;> exact PyErr.noConfusion h'
          | ok laterals2 =>
            rw [h3] at h; simp only [] at h
            cases h4 : (if 0 < m.num_extra_trans_convs then
                match pyGet laterals2 0 with
                | Except.error e => Except.error e
                | Except.ok l0 => buildExtraLaterals m l0
              else Except.ok ([] : List Tensor)) with
            | error e4 =>
              rw [h4] at h; simp only [Except.error.injEq] at h
              have hst : stageErr e4 := by
                split at h4
                · cases h5 : pyGet laterals2 0 with
                  | error e5 =>
                    rw [h5] at h4; simp only [Except.error.injEq] at h4
                    subst h4
                    exact Or.inl (pyGet_err h5)
                  | ok l0 =>
                    rw [h5] at h4; simp only [] at h4
                    exact buildExtraLaterals_err h4
                · exact Except.noConfusion h4
              rcases hst with h' | h' | h' <;> rw [h] at h' <;>
                exact PyErr.noConfusion h'
            | ok extraLats =>
              rw [h4] at h; simp only [] at h
              cases h6 : part1Outs m laterals2 laterals.length with
              | error e6 =>
                rw [h6] at h; simp only [Except.error.injEq] at h
                rcases part1Aux_err m laterals2 laterals.length 0 e6 h6 with h' | h' | h' <;>
                  rw [h] at h' <;> exact PyErr.noConfusion h'
              | ok outs =>
                rw [h6] at h; simp only [] at h
                cases h7 : part2 m inputs laterals2 extraLats laterals.length outs with
                | error e7 =>
                  rw [h7] at h; simp only [Except.error.injEq] at h
                  rcases part2_err_dispatch haec h7 with h' | h' | h' <;>
                    rw [h] at h' <;> exact PyErr.noConfusion h'
                | ok o2 => rw [h7] at h; simp only [] at h; exact Except.noConfusion h

theorem forward_not_notImplemented {m : FPN} {inputs0 : List Tensor}
    (haec : m.add_extra_convs = ExtraConvsArg.bool false ∨
      m.add_extra_convs = ExtraConvsArg.str "on_input" ∨
      m.add_extra_convs = ExtraConvsArg.str "on_lateral" ∨
      m.add_extra_convs = ExtraConvsArg.str "on_output") :
    forward m inputs0 ≠ Except.error PyErr.notImplemented := by
  intro h
  unfold forward at h
  cases h1 : forwardParts m inputs0 with
  | error e =>
    rw [h1] at h; simp only [Except.error.injEq] at h
    subst h
    rcases forwardParts_err_dispatch haec h1 with h' | h' | h' | h' <;>
      exact PyErr.noConfusion h'
  | ok p =>
    obtain ⟨extraLats, outs⟩ := p
    rw [h1] at h; simp only [] at h
    split at h
    case isTrue hn =>
      cases h2 : part3 m extraLats with
      | error e2 =>
        rw [h2] at h; simp only [Except.error.injEq] at h
        subst h
        rcases part3Aux_err m extraLats m.num_extra_trans_convs 0 _ h2 with h' | h' | h' <;>
          exact PyErr.noConfusion h'
      | ok extraOuts =>
        rw [h2] at h; simp only [] at h
        split at h
        case isTrue => exact Except.noConfusion h
        case isFalse =>
          simp only [Except.error.injEq] at h
          exact PyErr.noConfusion h
    case isFalse hn =>
      simp only [Except.error.injEq] at h
      exact PyErr.noConfusion h

/-! ## Claim theorems -/

/-- Claim C1 (code bug): with `num_extra_trans_convs = 0` — the documented
default — `forward` does not produce `num_outs` feature maps for a
correct-length input: it raises the `NameError` on the unbound local
`extra_outs` at the final assertion (line 275), so no configuration-independent
output-count guarantee holds.  Evaluated at the concrete configuration `cfg0`
(`in_channels = [4, 8]`, `out_channels = 5`, `num_outs = 2`) and input
`inputs1`. -/
theorem forward_default_netc_raises :
    init cfg0 = Except.ok m0 ∧
    inputs1.length = cfg0.in_channels.length ∧
    forward m0 inputs1 = Except.error PyErr.nameErrorExtraOuts ∧
    resOk (forward m0 inputs1) = false :=
  ⟨by decide, by decide, by decide, by decide⟩

/-- Claim C2: when `num_extra_trans_convs = 0`, `forward` never returns
normally, and every call in which all stages before line 266 succeed (the
length assertion, pre-norm, laterals, top-down path, parts 1 and 2, i.e.
`forwardParts` returns) raises the `NameError` on the unbound local
`extra_outs` at the final length assertion; `forward` can return normally
only under the precondition `num_extra_trans_convs ≥ 1`. -/
theorem forward_name_error_when_no_extra_trans (m : FPN) (inputs0 : List Tensor)
    (h : m.num_extra_trans_convs = 0) :
    (∀ v, forward m inputs0 ≠ Except.ok v) ∧
    (resOk (forwardParts m inputs0) = true →
      forward m inputs0 = Except.error PyErr.nameErrorExtraOuts) := by
  constructor
  · intro v hv
    obtain ⟨_, _, _, _, hn, _⟩ := forward_ok_inversion hv
    omega
  · intro hok
    unfold forward
    cases h1 : forwardParts m inputs0 with
    | error e => rw [h1] at hok; simp [resOk] at hok
    | ok p =>
      obtain ⟨el, outs⟩ := p
      simp only []
      rw [if_neg (by omega)]

theorem forward_name_error_when_no_extra_trans_witness :
    m0.num_extra_trans_convs = 0 ∧
    forward m0 inputs1 = Except.error PyErr.nameErrorExtraOuts :=
  ⟨by decide, (forward_name_error_when_no_extra_trans m0 inputs1 (by decide)).2 (by decide)⟩

/-- Claim C3: whenever the first half of `forward` (up to part 2) completes,
the pipeline has run in order: the pre-normalized inputs were projected by the
lateral 1x1 convolutions (`LateralsSpec`), the top-down path left the coarsest
lateral unchanged and incremented each lateral at level `i` by the accumulated
lateral at level `i+1` upsampled by `F.interpolate` — to the spatial size of
level `i` or by the configured scale factor (`TopDownSpec`) — and each
accumulated lateral was passed through its 3x3 fpn convolution to give the
backbone-derived outputs (`FpnOutsSpec`), which part 2 then extends. -/
theorem forward_pipeline_spec {m : FPN} {inputs0 el outs2 : List Tensor}
    (hf : forwardParts m inputs0 = Except.ok (el, outs2)) :
    ∃ inputs l l2 outs,
      applyPreNorm m inputs0 = Except.ok inputs ∧
      buildLaterals m inputs = Except.ok l ∧
      topDown m l = Except.ok l2 ∧
      part1Outs m l2 l.length = Except.ok outs ∧
      LateralsSpec m inputs l ∧
      TopDownSpec m l l2 ∧
      outs.length = l.length ∧
      FpnOutsSpec m l2 outs ∧
      part2 m inputs l2 el l.length outs = Except.ok outs2 := by
  obtain ⟨_, inputs, l, l2, outs, h1, h2, h3, _, h5, h6⟩ := forwardParts_ok_inversion hf
  refine ⟨inputs, l, l2, outs, h1, h2, h3, h5, buildLaterals_spec h2, topDown_spec h3,
    (part1Aux_spec m l2 l.length 0 outs h5).1, ?_, h6⟩
  intro i hi
  obtain ⟨hlen, helt⟩ := part1Aux_spec m l2 l.length 0 outs h5
  obtain ⟨s, t, hs, ht, hc⟩ := helt i (by omega)
  exact ⟨s, t, by simpa using hs, by simpa using ht, by simpa using hc⟩

theorem forward_pipeline_spec_witness :
    forwardParts m0 inputs1 = Except.ok ([], outsW) ∧
    (∃ inputs l l2 outs,
      applyPreNorm m0 inputs1 = Except.ok inputs ∧
      buildLaterals m0 inputs = Except.ok l ∧
      topDown m0 l = Except.ok l2 ∧
      part1Outs m0 l2 l.length = Except.ok outs ∧
      LateralsSpec m0 inputs l ∧
      TopDownSpec m0 l l2 ∧
      outs.length = l.length ∧
      FpnOutsSpec m0 l2 outs ∧
      part2 m0 inputs l2 [] l.length outs = Except.ok outsW) :=
  ⟨by decide, forward_pipeline_spec (by decide)⟩

/-- Claim C4: under any configuration accepted by `__init__`, for every input
whose per-level channel counts match `in_channels`, every feature map of a
normal return of `forward` has exactly `out_channels` channels, at every
output scale. -/
theorem forward_out_channels {cfg : FPNConfig} {m : FPN} {inputs0 : List Tensor}
    (hi : init cfg = Except.ok m)
    (hch : inputs0.length = cfg.in_channels.length ∧
      ∀ i, i < inputs0.length →
        (inputs0.getD i tZero).channels = cfg.in_channels.getD i 0)
    (hok : resOk (forward m inputs0) = true) :
    outChannelsOk cfg.out_channels (forward m inputs0) = true := by
  cases hv : forward m inputs0 with
  | error e => rw [hv] at hok; simp [resOk] at hok
  | ok v =>
    obtain ⟨el, outs, eo, hparts, hn, hp3, hlen, hvv⟩ := forward_ok_inversion hv
    subst hvv
    obtain ⟨hoc, hnetc, hfpn, hefpn⟩ := init_fields hi
    obtain ⟨_, inputs, laterals, laterals2, outsA, _, _, _, _, hp1, hp2⟩ :=
      forwardParts_ok_inversion hparts
    have houtsA : ∀ t ∈ outsA, t.channels = cfg.out_channels := by
      unfold part1Outs at hp1
      exact part1Aux_channels hfpn laterals.length 0 outsA hp1
    have houts : ∀ t ∈ outs, t.channels = cfg.out_channels :=
      part2_channels hfpn houtsA hp2
    have heo : ∀ t ∈ eo, t.channels = cfg.out_channels := by
      unfold part3 at hp3
      exact part3Aux_channels hefpn m.num_extra_trans_convs 0 eo hp3
    simp only [outChannelsOk, List.all_eq_true]
    intro t ht
    rcases List.mem_append.mp ht with ht | ht
    · simp [heo t ht]
    · simp [houts t ht]

theorem forward_out_channels_witness :
    outChannelsOk cfg1.out_channels (forward m1 inputs1) = true :=
  forward_out_channels (by decide) ⟨by decide, by decide⟩ (by decide)

/-- Claim C5: when `num_extra_trans_convs > 0`, the extra laterals are built
by applying the stride-2 transposed convolutions iteratively starting from the
finest accumulated lateral, each result prepended — so the extra laterals are
the reverse of the application-order chain, ordered finest first (each extra
lateral has twice the spatial size of the next) — each extra lateral is then
passed through its own 3x3 convolution, and in a normal return of `forward`
the extra outputs precede the backbone-derived outputs in the returned
tuple. -/
theorem extra_trans_pipeline {m : FPN} (hn : 0 < m.num_extra_trans_convs) :
    (∀ lat0 : Tensor, buildExtraLaterals m lat0 =
      Except.map List.reverse (transChain m lat0 0 m.num_extra_trans_convs)) ∧
    (∀ (lat0 : Tensor) (l : List Tensor), buildExtraLaterals m lat0 = Except.ok l →
      l.length = m.num_extra_trans_convs ∧
      ∀ j, j + 1 < l.length →
        (l.getD j tZero).height = 2 * (l.getD (j + 1) tZero).height ∧
        (l.getD j tZero).width = 2 * (l.getD (j + 1) tZero).width) ∧
    (∀ (els eo : List Tensor), part3 m els = Except.ok eo →
      eo.length = m.num_extra_trans_convs ∧
      ∀ i, i < eo.length →
        ∃ s t, m.extra_fpn_convs.get? i = some s ∧ els.get? i = some t ∧
          applyConvSame ConvTag.extraFpn i s t = Except.ok (eo.getD i tZero)) ∧
    (∀ (inputs0 : List Tensor) (v : PyValue), forward m inputs0 = Except.ok v →
      ∃ el outs eo, forwardParts m inputs0 = Except.ok (el, outs) ∧
        part3 m el = Except.ok eo ∧ v = PyValue.tuple (eo ++ outs)) := by
  refine ⟨buildExtraLaterals_eq_chain m, ?_, ?_, ?_⟩
  · intro lat0 l h
    obtain ⟨c, _, _, hlen, hh⟩ := buildExtraLaterals_spec h
    exact ⟨hlen, hh⟩
  · intro els eo h
    unfold part3 at h
    obtain ⟨hlen, helt⟩ := part3Aux_spec m els m.num_extra_trans_convs 0 eo h
    refine ⟨hlen, ?_⟩
    intro i hi
    obtain ⟨s, t, hs, ht, hc⟩ := helt i (by omega)
    exact ⟨s, t, by simpa using hs, by simpa using ht, by simpa using hc⟩
  · intro inputs0 v hv
    obtain ⟨el, outs, eo, hparts, _, hp3, _, hvv⟩ := forward_ok_inversion hv
    exact ⟨el, outs, eo, hparts, hp3, hvv⟩

theorem extra_trans_pipeline_witness :
    0 < m1.num_extra_trans_convs ∧
    buildExtraLaterals m1 accW0 =
      Except.map List.reverse (transChain m1 accW0 0 m1.num_extra_trans_convs) :=
  ⟨by decide, (extra_trans_pipeline (by decide)).1 accW0⟩

/-- Claim C7: `forward` fails with the input-length assertion error exactly
for inputs whose length differs from `len(in_channels)`; when the length
matches, that assertion never fires (any failure is a different exception).
The assertion depends only on the input length, before any tensor
computation. -/
theorem forward_input_length_assert (m : FPN) (inputs0 : List Tensor) :
    forward m inputs0 = Except.error PyErr.assertInputLen ↔
      inputs0.length ≠ m.in_channels.length := by
  constructor
  · intro h
    rcases forward_err h with ⟨_, hne⟩ | hst | hni | hao | hne2
    · exact hne
    · rcases hst with h' | h' | h' <;> exact PyErr.noConfusion h'
    · exact PyErr.noConfusion hni
    · exact PyErr.noConfusion hao
    · exact PyErr.noConfusion hne2
  · intro hne
    unfold forward
    have hp : forwardParts m inputs0 = Except.error PyErr.assertInputLen := by
      unfold forwardParts
      rw [if_neg hne]
    rw [hp]

/-- Claim C9: whenever `forward` returns normally, the returned value is a
Python tuple of tensors (line 276 `return tuple(extra_outs + outs)`), never a
list or a single tensor. -/
theorem forward_returns_tuple {m : FPN} {inputs0 : List Tensor}
    (h : resOk (forward m inputs0) = true) :
    isTupleRes (forward m inputs0) = true := by
  cases hv : forward m inputs0 with
  | error e => rw [hv] at h; simp [resOk] at h
  | ok v =>
    obtain ⟨el, outs, eo, _, _, _, _, hvv⟩ := forward_ok_inversion hv
    subst hvv
    simp [isTupleRes]

theorem forward_returns_tuple_witness :
    isTupleRes (forward m1 inputs1) = true :=
  forward_returns_tuple (by decide)

/-- Claim C10: after `__init__` returns, the stored `add_extra_convs` is never
the boolean `True`: it is `False` or one of `'on_input'`, `'on_lateral'`,
`'on_output'`; passing `add_extra_convs=True` rewrites it to `'on_input'` when
`extra_convs_on_inputs` is true and to `'on_output'` otherwise; consequently
the `NotImplementedError` branch in `forward`'s extra-source dispatch is
unreachable. -/
theorem add_extra_convs_invariant {cfg : FPNConfig} {m : FPN}
    (h : init cfg = Except.ok m) :
    m.add_extra_convs ≠ ExtraConvsArg.bool true ∧
    (m.add_extra_convs = ExtraConvsArg.bool false ∨
      m.add_extra_convs = ExtraConvsArg.str "on_input" ∨
      m.add_extra_convs = ExtraConvsArg.str "on_lateral" ∨
      m.add_extra_convs = ExtraConvsArg.str "on_output") ∧
    (cfg.add_extra_convs = ExtraConvsArg.bool true →
      m.add_extra_convs = ExtraConvsArg.str
        (if cfg.extra_convs_on_inputs then "on_input" else "on_output")) ∧
    (∀ inputs0, forward m inputs0 ≠ Except.error PyErr.notImplemented) := by
  obtain ⟨bel, aec, c0, hb, ha, hc, hc0, hm⟩ := init_ok_inversion h
  have haec : m.add_extra_convs = aec := by subst hm; rfl
  obtain ⟨hcases, htrue, hne⟩ := resolveAEC_ok_cases ha
  refine ⟨by rw [haec]; exact hne, by rw [haec]; exact hcases, ?_, ?_⟩
  · intro hT
    rw [haec]
    exact htrue hT
  · intro inputs0
    apply forward_not_notImplemented
    rw [haec]
    exact hcases

theorem add_extra_convs_invariant_witness :
    mT.add_extra_convs = ExtraConvsArg.str "on_input" ∧
    forward mT inputs1 ≠ Except.error PyErr.notImplemented := by
  have hC := @add_extra_convs_invariant cfgT mT (by decide)
  refine ⟨?_, hC.2.2.2 inputs1⟩
  have := hC.2.2.1 (by decide)
  simpa using this

end EfficientViM
